import Mathlib

/-!
Verification of the turn-level dialogue evaluation pipeline in
genienlp/validate.py.

The development shallowly embeds the orchestration core of
generate_with_seq2seq_model_for_dialogue and its helper
replace_capturing_group:

* texts are lists of characters; Python str.strip and str.replace are
  modelled directly;
* the two regular expressions used by the source, of the shape
  MARKER ++ "(.*?)(?:$|<)", are modelled by an explicit leftmost-lazy
  search function over the character list;
* Python dicts (the dialogue state, the per-dialogue report) are
  modelled as insertion-ordered association lists with unique keys,
  with assignment replacing the first occurrence of a key in place and
  appending fresh keys at the end, exactly as CPython dicts behave;
* the per-turn loop is an explicit state-passing fold; exceptions that
  escape the loop are modelled by an Except error value;
* external collaborators (the generation model, the BiToD
  serialization helpers span2state / state2span / knowledge2span /
  state2constraints, the knowledge API, r_en_API_MAP) are parameters:
  the model output and the API outcome are carried by each turn record,
  and the serialization helpers are fields of an Env structure.
-/

namespace GenieNLP

/-- Character class removed by Python str.strip() with no arguments
(the six ASCII whitespace characters; other Unicode whitespace does not
occur in the texts handled by the source). -/
def isPySpace (c : Char) : Bool :=
  c = ' ' || c = '\t' || c = '\n' || c = '\r' || c = '\x0b' || c = '\x0c'

/-- Leading-whitespace removal, as in Python str.lstrip(). -/
def lstripL (s : List Char) : List Char := s.dropWhile isPySpace

/-- Trailing-whitespace removal, as in Python str.rstrip(). -/
def rstripL (s : List Char) : List Char := (s.reverse.dropWhile isPySpace).reverse

/-- Python str.strip(). -/
def stripL (s : List Char) : List Char := rstripL (lstripL s)

/-- Python str.strip() on packed strings. -/
def pyStrip (s : String) : String := ⟨stripL s.data⟩

/-- Python str.replace for a non-empty needle, fuel-indexed: replaces
every non-overlapping occurrence, scanning left to right. -/
def pyReplaceAllFuel (o : Char) (os new : List Char) : Nat → List Char → List Char
  | 0, s => s
  | _ + 1, [] => []
  | n + 1, c :: t =>
    if (o :: os).isPrefixOf (c :: t) then new ++ pyReplaceAllFuel o os new n (t.drop os.length)
    else c :: pyReplaceAllFuel o os new n t

/-- Python str.replace(old, new): for an empty needle the interpreter
inserts the replacement at every position, including both ends.  Every
step of the scan consumes at least one character, so the subject length
bounds the number of steps. -/
def pyReplaceAll (s old new : List Char) : List Char :=
  match old with
  | [] => new ++ (s.map (fun c => c :: new)).flatten
  | o :: os => pyReplaceAllFuel o os new s.length s

/-- Substring test (Python needle in haystack). -/
def hasSub : List Char → List Char → Bool
  | [], pat => pat.isEmpty
  | c :: t, pat => pat.isPrefixOf (c :: t) || hasSub t pat

/-- Result of a successful search of the pattern
MARKER ++ "(.*?)(?:$|<)" in a subject string: the subject is
pre ++ MARKER ++ grp ++ terminator ++ post, where the terminator is a
consumed literal character < when usedLt is true, and the empty
end-of-subject match of the dollar anchor otherwise. -/
structure ReMatch where
  pre : List Char
  grp : List Char
  post : List Char
  usedLt : Bool
deriving DecidableEq, Repr

/-- The lazy tail (.*?)(?:$|<) of the two source regexes, matched
against the characters following the marker.  The dot does not match a
newline; the dollar anchor (no MULTILINE flag) matches at the end of
the subject or just before one final newline.  Returns the captured
group, the characters after the match, and whether the literal <
alternative consumed a character. -/
def findGroup : List Char → Option (List Char × List Char × Bool)
  | [] => some ([], [], false)
  | c :: t =>
    if c = '<' then some ([], t, true)
    else if c = '\n' then (if t = [] then some ([], ['\n'], false) else none)
    else (findGroup t).map (fun r => (c :: r.1, r.2.1, r.2.2))

/-- Attempt to match the pattern at the start of the subject. -/
def matchHere (M s : List Char) : Option (List Char × List Char × Bool) :=
  if M.isPrefixOf s then findGroup (s.drop M.length) else none

/-- Python re.search for the pattern MARKER ++ "(.*?)(?:$|<)": the
leftmost position where the whole pattern matches wins. -/
def searchFrom (M : List Char) : List Char → Option ReMatch
  | [] =>
    match matchHere M [] with
    | some r => some ⟨[], r.1, r.2.1, r.2.2⟩
    | none => none
  | c :: t =>
    match matchHere M (c :: t) with
    | some r => some ⟨[], r.1, r.2.1, r.2.2⟩
    | none => (searchFrom M t).map (fun m => ⟨c :: m.pre, m.grp, m.post, m.usedLt⟩)

/-- One fuel-indexed pass of Python re.sub: every non-overlapping match
of the pattern, scanning left to right, is replaced by the same
replacement text (the source replacement strings contain no backslash,
so template escape processing is the identity). -/
def subAllFuel (M repl : List Char) : Nat → List Char → List Char
  | 0, s => s
  | Nat.succ n, s =>
    match searchFrom M s with
    | none => s
    | some m => m.pre ++ repl ++ subAllFuel M repl n m.post

/-- Python re.sub(re_pattern, repl, s).  Each match consumes at least
the marker, so s.length bounds the number of matches. -/
def subAll (M repl s : List Char) : List Char := subAllFuel M repl s.length s

/-- replace_capturing_group from validate.py: search the pattern, strip
the whole match and the captured group, replace every occurrence of the
stripped captured group inside the stripped whole match by the
replacement, then substitute that rewritten text for every match of the
pattern in the input.  Returns none when the pattern does not match, in
which case the source raises AttributeError on NoneType.group. -/
def replace_capturing_group (M input repl : List Char) : Option (List Char) :=
  match searchFrom M input with
  | none => none
  | some m =>
    let whole := stripL (M ++ m.grp ++ (if m.usedLt then ['<'] else []))
    let captured := stripL m.grp
    let newWhole := pyReplaceAll whole captured repl
    some (subAll M newWhole input)

/-- The extraction idiom re_pattern.search(text).group(1).strip() used
at the gold-state lookup in the zero-result branch of the api turn. -/
def extract_capturing_group (M input : List Char) : Option (List Char) :=
  (searchFrom M input).map (fun m => stripL m.grp)

/-- The state-span pattern '<state> (.*?)(?:$|<)' of validate.py. -/
def stateMarker : List Char := "<state> ".data

/-- The knowledge-span pattern '<knowledge> (.*?)(?:$|<)'. -/
def knowledgeMarker : List Char := "<knowledge> ".data

/-- Python dict assignment d[k] = v on an insertion-ordered
association list: an existing key keeps its position and gets the new
value, a fresh key is appended at the end. -/
def dictInsert {β : Type} (k : String) (v : β) : List (String × β) → List (String × β)
  | [] => [(k, v)]
  | (k', v') :: t => if k' = k then (k, v) :: t else (k', v') :: dictInsert k v t

/-- Python dict read d.get(k): the first (and, for genuine dicts, only)
binding of the key. -/
def alookup {β : Type} (k : String) : List (String × β) → Option β
  | [] => none
  | (k', v') :: t => if k' = k then some v' else alookup k t

/-- A list of pairs that actually represents a Python dict: keys are
pairwise distinct. -/
abbrev NodupKeys {β : Type} (l : List (String × β)) : Prop := (l.map Prod.fst).Nodup

/-- A constraint set: Python dict from slot name to value. -/
abbrev CMap := List (String × String)

/-- The dialogue state: Python dict from API name to constraint set. -/
abbrev DState := List (String × CMap)

/-- Python d.update(delta) on a constraint dict: assigns every binding
of delta into d in iteration order. -/
def updateDict (d delta : CMap) : CMap :=
  delta.foldl (fun acc p => dictInsert p.1 p.2 acc) d

/-- One iteration of the dst merge loop of validate.py (lines 271-276):
an API key absent from the dialogue state is inserted wholesale, a
present key has its constraint dict updated slot by slot. -/
def mergeStep (acc : DState) (p : String × CMap) : DState :=
  match alookup p.1 acc with
  | none => dictInsert p.1 p.2 acc
  | some existing => dictInsert p.1 (updateDict existing p.2) acc

/-- The dst state merge: fold of mergeStep over the delta dict in its
iteration order. -/
def mergeState (S D : DState) : DState := D.foldl mergeStep S

/-- External collaborators of the orchestration core, imported by the
source from the BiToD package and therefore outside this repository:
the span/state serialization contract of spec section 4.2 and the
r_en_API_MAP relabeling (modelled with its identity default folded in). -/
structure Env where
  span2state : String → DState
  state2span : DState → String
  state2constraints : CMap → CMap
  knowledge2span : List (String × CMap) → String
  apiNameMap : String → String

/-- Outcome the external knowledge API produces if it is called at this
turn: ok (top-ranked item, count) or a raised exception.  The processed
query msg[2] only ever appears inside log strings, so it is dropped. -/
abbrev ApiOutcome := Except Unit (CMap × Int)

instance {ε α : Type} [DecidableEq ε] [DecidableEq α] : DecidableEq (Except ε α) := fun a b =>
  match a, b with
  | .error x, .error y =>
    if h : x = y then isTrue (h ▸ rfl) else isFalse (fun hh => h (Except.error.inj hh))
  | .ok x, .ok y =>
    if h : x = y then isTrue (h ▸ rfl) else isFalse (fun hh => h (Except.ok.inj hh))
  | .error _, .ok _ => isFalse (fun hh => Except.noConfusion hh)
  | .ok _, .error _ => isFalse (fun hh => Except.noConfusion hh)

/-- One stream element.  The source receives a numericalized batch of
exactly one example (asserted at line 160) and recovers the fields
below through external adapters: the four id components come from
example_id.split('/'), the context from detokenization, and the
prediction from model.generate followed by task.postprocess_prediction.
The generation model and the API are external, so the turn record
carries their outputs. -/
structure Turn where
  taskName : String
  dialId : String
  turnId : Int
  trainTarget : String
  context : String
  answer : String
  prediction : String
  apiOutcome : ApiOutcome
deriving DecidableEq, Repr

/-- The composite example id task_name/dial_id/turn_id/train_target. -/
def exampleIdOf (t : Turn) : String :=
  t.taskName ++ "/" ++ t.dialId ++ "/" ++ toString t.turnId ++ "/" ++ t.trainTarget

/-- One value of the per-turn report dict
bitod_preds[dial_id]["turns"][str(turn_id)]: a Python dict that may
acquire the keys state, api and response. -/
structure TurnEntry where
  state : Option DState := none
  api : Option String := none
  response : Option (List String) := none
deriving DecidableEq, Repr

/-- The per-dialogue report {"turns": ..., "API": ...} of line 176. -/
structure DialReport where
  turns : List (String × TurnEntry)
  apis : List (String × CMap)
deriving DecidableEq, Repr

/-- The fresh report entry created when a new dialogue id is seen. -/
def emptyDialReport : DialReport := ⟨[], []⟩

/-- defaultdict(dict) field assignment
turns[key][field] = value: fetch or create the entry for the key, then
apply the field update, keeping the key position (or appending). -/
def setTurnEntry (turns : List (String × TurnEntry)) (key : String)
    (f : TurnEntry → TurnEntry) : List (String × TurnEntry) :=
  dictInsert key (f ((alookup key turns).getD {})) turns

/-- Exceptions that escape generate_with_seq2seq_model_for_dialogue. -/
inductive Fatal where
  | missingMarker
  | invalidTrainTarget
  | unboundLocalMsg
  | goldStateKeyError
deriving DecidableEq, Repr

/-- The mutable locals of the per-turn loop.  The field msg models the
Python local msg, which is unbound (none) until the first API call of
the run binds it; it persists across turns and across dialogues. -/
structure LoopState where
  bitodPreds : List (String × DialReport)
  predictions : List (List String)
  exampleIds : List String
  answers : List String
  contexts : List String
  curDialId : String
  dialogueState : DState
  newStateText : String
  newKnowledgeText : String
  activeApi : Option String
  msg : Option (CMap × Int)
deriving DecidableEq, Repr

/-- State on entry to the loop.  In the source, dialogue_state,
new_state_text, new_knowledge_text and active_api are unbound until the
first new-dialogue reset; since cur_dial_id starts as the empty string,
any turn whose dialogue id is nonempty performs the reset before these
are read.  We give them their reset values here, so the model agrees
with the source on every stream whose dialogue ids are nonempty (a
first turn with dial_id = '' would raise NameError in the source). -/
def initialLoopState : LoopState :=
  { bitodPreds := [], predictions := [], exampleIds := [], answers := [], contexts := [],
    curDialId := "", dialogueState := [], newStateText := "null", newKnowledgeText := "null",
    activeApi := none, msg := none }

/-- Lines 169-176: a turn whose dialogue id differs from the previous
turn's resets all per-dialogue substate and installs a fresh empty
report entry for the new dialogue id (overwriting any existing one). -/
def applyDialogueReset (st : LoopState) (dialId : String) : LoopState :=
  if st.curDialId = dialId then st
  else
    { st with
      curDialId := dialId
      dialogueState := []
      newStateText := "null"
      newKnowledgeText := "null"
      activeApi := none
      bitodPreds := dictInsert dialId emptyDialReport st.bitodPreds }

/-- replace_capturing_group on packed strings. -/
def replaceSpan (M : List Char) (ctx val : String) : Option String :=
  (replace_capturing_group M ctx.data val.data).map (fun l => ⟨l⟩)

/-- First per-turn dispatch (lines 203-225): build the model input from
the turn context by span substitution and, for an api turn, re-render
the state span from the current dialogue state.  Returns the input text
and the (possibly updated) new_state_text; a missing marker raises. -/
def computeInput (env : Env) (st : LoopState) (t : Turn) : Except Fatal (String × String) :=
  if t.trainTarget = "dst" then
    match replaceSpan stateMarker t.context st.newStateText with
    | none => .error .missingMarker
    | some it => .ok (it, st.newStateText)
  else if t.trainTarget = "api" then
    match replaceSpan stateMarker t.context (env.state2span st.dialogueState) with
    | none => .error .missingMarker
    | some it => .ok (it, env.state2span st.dialogueState)
  else if t.trainTarget = "response" then
    match replaceSpan stateMarker t.context st.newStateText with
    | none => .error .missingMarker
    | some it1 =>
      match replaceSpan knowledgeMarker it1 st.newKnowledgeText with
      | none => .error .missingMarker
      | some it2 => .ok (it2, st.newStateText)
  else .error .invalidTrainTarget

/-- The dict comprehension of line 280: relabel the API keys of the
deep-copied dialogue state through r_en_API_MAP. -/
def renameState (env : Env) (ds : DState) : DState :=
  ds.foldl (fun acc p => dictInsert (env.apiNameMap p.1) p.2 acc) []

/-- Line 281: record the relabeled merged state under the turn key. -/
def recordState (env : Env) (preds : List (String × DialReport)) (dialId key : String)
    (ds : DState) : List (String × DialReport) :=
  let r := (alookup dialId preds).getD emptyDialReport
  dictInsert dialId
    { r with turns := setTurnEntry r.turns key (fun e => { e with state := some (renameState env ds) }) }
    preds

/-- Line 340: record the turn's knowledge text under the api key. -/
def recordApiText (preds : List (String × DialReport)) (dialId key txt : String) :
    List (String × DialReport) :=
  let r := (alookup dialId preds).getD emptyDialReport
  dictInsert dialId { r with turns := setTurnEntry r.turns key (fun e => { e with api := some txt }) } preds

/-- Line 328: record the attempted constraints under the relabeled API
name in the dialogue's top-level API map. -/
def recordConstraints (env : Env) (preds : List (String × DialReport)) (dialId apiName : String)
    (constraints : CMap) : List (String × DialReport) :=
  let r := (alookup dialId preds).getD emptyDialReport
  dictInsert dialId { r with apis := dictInsert (env.apiNameMap apiName) constraints r.apis } preds

/-- Line 345: record the prediction list as the turn's response. -/
def recordResponse (preds : List (String × DialReport)) (dialId key : String)
    (resp : List String) : List (String × DialReport) :=
  let r := (alookup dialId preds).getD emptyDialReport
  dictInsert dialId
    { r with turns := setTurnEntry r.turns key (fun e => { e with response := some resp }) } preds

/-- Lines 311-325: interpretation of the bound msg after the call site.
count <= 0 re-extracts the gold state span from the turn context (the
span is present, since computeInput already matched it), looks the
active API up in the gold state for the diagnostic diff - a KeyError
escapes when the gold state lacks it - and emits the fixed no-item
message; count > 0 encodes the top-ranked record. -/
def afterCall (env : Env) (t : Turn) (apiName : String) (m : CMap × Int) :
    Except Fatal (String × (CMap × Int)) :=
  if m.2 ≤ 0 then
    match extract_capturing_group stateMarker t.context.data with
    | none => .error .missingMarker
    | some goldSpan =>
      match alookup apiName (env.span2state ⟨goldSpan⟩) with
      | none => .error .goldStateKeyError
      | some _ => .ok ("( " ++ apiName ++ " ) Message = No item available.", m)
  else
    .ok (env.knowledge2span [(apiName, updateDict [] m.1)], m)

/-- Lines 297-309: the guarded API call.  On an exception the except
block first interpolates msg[2] into a log line: if msg has never been
bound, that read raises UnboundLocalError, which propagates; otherwise
the stale msg is logged and msg is downgraded to [0, 0, 0]. -/
def apiYesCall (env : Env) (st : LoopState) (t : Turn) (apiName : String) :
    Except Fatal (String × (CMap × Int)) :=
  match t.apiOutcome with
  | .error _ =>
    match st.msg with
    | none => .error .unboundLocalMsg
    | some _ => afterCall env t apiName ([], 0)
  | .ok m => afterCall env t apiName m

/-- The per-iteration updates shared by all three sub-tasks: the
appends to the four parallel output lists (lines 164-201, 263-265) and
the dispatch's update of new_state_text.  In the source the
predictions append happens after generation, but a failed iteration
aborts the whole function without yielding any state, so grouping the
four appends is unobservable. -/
def appendOutputs (outputPredictionsOnly : Bool) (st : LoopState) (t : Turn)
    (nst : String) : LoopState :=
  { st with
    exampleIds := st.exampleIds ++ [exampleIdOf t]
    contexts := st.contexts ++ [t.context]
    answers := if outputPredictionsOnly then st.answers else st.answers ++ [t.answer]
    predictions := st.predictions ++ [[t.prediction]]
    newStateText := nst }

/-- The dst delta decoded from a turn's stripped model output. -/
def deltaOf (env : Env) (t : Turn) : DState := env.span2state (pyStrip t.prediction)

/-- Dialogue state accumulated by folding the dst deltas of a turn
list over a starting state; non-dst turns contribute nothing. -/
def dstateFold (env : Env) (S : DState) (ts : List Turn) : DState :=
  ts.foldl (fun acc t => if t.trainTarget = "dst" then mergeState acc (deltaOf env t) else acc) S

/-- Dialogue state built from scratch by the dst deltas of a turn list. -/
def dstateOf (env : Env) (ts : List Turn) : DState := dstateFold env [] ts

/-- Lines 267-281: decode the dst delta from the stripped prediction,
set ActiveAPI to the last API key the delta touches, merge the delta
into the dialogue state and record the relabeled result. -/
def dstApply (env : Env) (st : LoopState) (t : Turn) : LoopState :=
  { st with
    dialogueState := mergeState st.dialogueState (deltaOf env t)
    activeApi := (deltaOf env t).foldl (fun _ p => some p.1) st.activeApi
    bitodPreds := recordState env st.bitodPreds t.dialId (toString t.turnId)
      (mergeState st.dialogueState (deltaOf env t)) }

/-- Lines 284-341: the api turn.  new_knowledge_text is reset to null
at line 285; a call happens only when the stripped prediction is
exactly yes and ActiveAPI is set and present in the dialogue state
(active_api None or an absent key silently skips the call, as does a
no or unrecognized token); the turn's knowledge text is recorded in
either case, and a call also records the attempted constraints. -/
def apiApply (env : Env) (st : LoopState) (t : Turn) : Except Fatal LoopState :=
  match (if pyStrip t.prediction = "yes" then
      (match st.activeApi with
       | none => none
       | some a => (alookup a st.dialogueState).map (fun cm => (a, cm)))
    else none : Option (String × CMap)) with
  | some (apiName, cm) =>
    match apiYesCall env st t apiName with
    | .error e => .error e
    | .ok (nkt, m) =>
      .ok { st with
            newKnowledgeText := nkt
            msg := some m
            bitodPreds := recordApiText
              (recordConstraints env st.bitodPreds t.dialId apiName
                (env.state2constraints cm))
              t.dialId (toString t.turnId) nkt }
  | none =>
    .ok { st with
          newKnowledgeText := "null"
          bitodPreds := recordApiText st.bitodPreds t.dialId (toString t.turnId) "null" }

/-- Lines 343-345: record the prediction list as the turn's response. -/
def responseApply (st : LoopState) (t : Turn) : LoopState :=
  { st with
    bitodPreds := recordResponse st.bitodPreds t.dialId (toString t.turnId) [t.prediction] }

/-- The body of one loop iteration after the new-dialogue check: append
the turn to the parallel output lists, build the model input (fatal on
a missing marker or an unknown sub-task), then run the sub-task
specific state and report updates of lines 267-345. -/
def processTurnBody (env : Env) (outputPredictionsOnly : Bool) (st : LoopState) (t : Turn) :
    Except Fatal LoopState :=
  match computeInput env st t with
  | .error e => .error e
  | .ok (_, nst) =>
    if t.trainTarget = "dst" then
      .ok (dstApply env (appendOutputs outputPredictionsOnly st t nst) t)
    else if t.trainTarget = "api" then
      apiApply env (appendOutputs outputPredictionsOnly st t nst) t
    else if t.trainTarget = "response" then
      .ok (responseApply (appendOutputs outputPredictionsOnly st t nst) t)
    else .error .invalidTrainTarget

/-- One full loop iteration: the new-dialogue reset, then the body. -/
def processTurn (env : Env) (outputPredictionsOnly : Bool) (st : LoopState) (t : Turn) :
    Except Fatal LoopState :=
  processTurnBody env outputPredictionsOnly (applyDialogueReset st t.dialId) t

/-- The whole per-turn loop of generate_with_seq2seq_model_for_dialogue
as a fold; the first escaping exception aborts the run. -/
def runLoop (env : Env) (outputPredictionsOnly : Bool) :
    LoopState → List Turn → Except Fatal LoopState
  | st, [] => .ok st
  | st, t :: ts =>
    match processTurn env outputPredictionsOnly st t with
    | .error e => .error e
    | .ok st' => runLoop env outputPredictionsOnly st' ts

/-- The tuples sorted at lines 351-355:
(original_order, example_id, prediction, answer, context). -/
abbrev RTup := Int × String × List String × String × String

/-- Three-way comparison on integers. -/
def cmpInt (a b : Int) : Ordering :=
  if a < b then .lt else if b < a then .gt else .eq

/-- Three-way comparison on naturals. -/
def cmpNat (a b : Nat) : Ordering :=
  if a < b then .lt else if b < a then .gt else .eq

/-- Python characters compare by code point. -/
def cmpChar (a b : Char) : Ordering := cmpNat a.toNat b.toNat

/-- Python sequence comparison: lexicographic, shorter prefix first. -/
def cmpList {α : Type} (cmp : α → α → Ordering) : List α → List α → Ordering
  | [], [] => .eq
  | [], _ :: _ => .lt
  | _ :: _, [] => .gt
  | a :: as, b :: bs =>
    match cmp a b with
    | .eq => cmpList cmp as bs
    | o => o

/-- Python string comparison. -/
def cmpStr (a b : String) : Ordering := cmpList cmpChar a.data b.data

/-- Python list-of-strings comparison. -/
def cmpListStr (a b : List String) : Ordering := cmpList cmpStr a b

/-- Python tuple comparison on the sorted 5-tuples: lexicographic over
the components. -/
def cmpRTup (a b : RTup) : Ordering :=
  (cmpInt a.1 b.1).then ((cmpStr a.2.1 b.2.1).then ((cmpListStr a.2.2.1 b.2.2.1).then
    ((cmpStr a.2.2.2.1 b.2.2.2.1).then (cmpStr a.2.2.2.2 b.2.2.2.2))))

/-- The non-strict order underlying Python sorted(). -/
def RLe (a b : RTup) : Prop := cmpRTup a b ≠ .gt

/-- Stable insertion: the new element goes before the first existing
element that is not strictly below it. -/
def insertT (x : RTup) : List RTup → List RTup
  | [] => [x]
  | y :: t => if cmpRTup y x = .lt then y :: insertT x t else x :: y :: t

/-- Python sorted(): modelled as the stable insertion sort, which
agrees with any stable sort for the same total preorder. -/
def pySorted : List RTup → List RTup
  | [] => []
  | x :: t => insertT x (pySorted t)

/-- Lines 351-355: zip the original-order keys with the four parallel
output lists, sort the tuples, and unzip.  Python's star-unpacking of
an empty sorted list raises ValueError (zero values to unpack into five
names), modelled as none. -/
def reconcile (ord : List Int) (ids : List String) (preds : List (List String))
    (ans ctx : List String) :
    Option (List Int × List String × List (List String) × List String × List String) :=
  let tuples : List RTup := ord.zip (ids.zip (preds.zip (ans.zip ctx)))
  if tuples.isEmpty then none
  else
    let sorted := pySorted tuples
    some (sorted.map (·.1), sorted.map (·.2.1), sorted.map (·.2.2.1),
          sorted.map (·.2.2.2.1), sorted.map (·.2.2.2.2))

/-- A concrete instantiation of the external serialization contract,
used to evaluate the pipeline on concrete streams. -/
def envTest : Env :=
  { span2state := fun s =>
      if s = "P1" then [("hotel", [("price", "cheap")])]
      else if s = "P2" then [("hotel", [("star", "5")])]
      else [],
    state2span := fun _ => "S",
    state2constraints := fun c => c,
    knowledge2span := fun _ => "K",
    apiNameMap := fun s => s }

/-- A dst turn of dialogue A establishing hotel/price=cheap. -/
def tA1dst : Turn :=
  { taskName := "bitod", dialId := "A", turnId := 1, trainTarget := "dst",
    context := "<state> q", answer := "g1", prediction := "P1", apiOutcome := .ok ([], 1) }

/-- An api turn of dialogue A whose model output is yes and whose
external call raises. -/
def tA2apiFail : Turn :=
  { taskName := "bitod", dialId := "A", turnId := 2, trainTarget := "api",
    context := "<state> q", answer := "g2", prediction := "yes", apiOutcome := .error () }

/-- An api turn of dialogue A whose model output is yes and whose call
returns one item. -/
def tA2apiOk : Turn :=
  { taskName := "bitod", dialId := "A", turnId := 2, trainTarget := "api",
    context := "<state> q", answer := "g2", prediction := "yes",
    apiOutcome := .ok ([("name", "H")], 1) }

/-- An api turn of dialogue A whose model output is no. -/
def tA3apiNo : Turn :=
  { taskName := "bitod", dialId := "A", turnId := 3, trainTarget := "api",
    context := "<state> q", answer := "g3", prediction := "no", apiOutcome := .ok ([], 1) }

/-- A dst turn of dialogue B (used to interrupt dialogue A). -/
def tB1dst : Turn :=
  { taskName := "bitod", dialId := "B", turnId := 1, trainTarget := "dst",
    context := "<state> q", answer := "h1", prediction := "P1", apiOutcome := .ok ([], 1) }

/-- A second dst turn of dialogue A adding hotel/star=5. -/
def tA2dst : Turn :=
  { taskName := "bitod", dialId := "A", turnId := 2, trainTarget := "dst",
    context := "<state> q", answer := "g2", prediction := "P2", apiOutcome := .ok ([], 1) }

/-- An api turn arriving before any dst turn of its dialogue. -/
def tC1apiFirst : Turn :=
  { taskName := "bitod", dialId := "C", turnId := 1, trainTarget := "api",
    context := "<state> q", answer := "g1", prediction := "yes", apiOutcome := .error () }

/-- A response turn of dialogue A. -/
def tA4response : Turn :=
  { taskName := "bitod", dialId := "A", turnId := 4, trainTarget := "response",
    context := "<state> q <knowledge> r", answer := "g4", prediction := "hello",
    apiOutcome := .ok ([], 1) }

/-- A concrete mid-dialogue loop state: dialogue A underway, hotel
constraints tracked, a non-null knowledge span from an earlier call,
and msg bound by that call. -/
def stMid : LoopState :=
  { bitodPreds := [("A", emptyDialReport)], predictions := [["P1"]],
    exampleIds := ["bitod/A/1/dst"], answers := ["g1"], contexts := ["<state> q"],
    curDialId := "A", dialogueState := [("hotel", [("price", "cheap")])],
    newStateText := "S", newKnowledgeText := "K", activeApi := some "hotel",
    msg := some ([("name", "H")], 1) }

/-- The leading whitespace of a character list. -/
def wsPreOf (s : List Char) : List Char := s.takeWhile isPySpace

/-- The trailing whitespace that rstrip removes from the lstripped
list, so that s = wsPreOf s ++ stripL s ++ wsSufOf s. -/
def wsSufOf (s : List Char) : List Char := ((lstripL s).reverse.takeWhile isPySpace).reverse

/-- Report getter: the api text recorded for a turn of a dialogue. -/
def reportApiAt (res : Except Fatal LoopState) (d k : String) : Option String :=
  match res with
  | .error _ => none
  | .ok st => (alookup d st.bitodPreds).bind (fun r => (alookup k r.turns).bind (fun e => e.api))

/-- Report getter: the dialogue state recorded for a turn of a dialogue. -/
def reportStateAt (res : Except Fatal LoopState) (d k : String) : Option DState :=
  match res with
  | .error _ => none
  | .ok st => (alookup d st.bitodPreds).bind (fun r => (alookup k r.turns).bind (fun e => e.state))

/-- Well-formedness of one dialogue's report keys relative to the
turns processed so far: distinct keys, the string images of a strictly
increasing integer list, every one the turn id of a processed turn. -/
def TurnKeysOk (turns : List (String × TurnEntry)) (processed : List Turn) : Prop :=
  (turns.map Prod.fst).Nodup
  ∧ ∃ ks : List Int, turns.map Prod.fst = ks.map toString ∧ ks.Chain' (· < ·)
      ∧ ∀ j ∈ ks, ∃ t ∈ processed, t.turnId = j

/-- Every recorded state field of one dialogue's report equals the
relabeled merge of the dst deltas of the processed turns whose id does
not exceed the entry's key. -/
def TurnStatesOk (env : Env) (turns : List (String × TurnEntry)) (processed : List Turn) :
    Prop :=
  ∀ p ∈ turns, ∀ s, p.2.state = some s →
    ∃ k : Int, p.1 = toString k ∧ (∃ t ∈ processed, t.turnId = k)
      ∧ s = renameState env (dstateOf env (processed.filter (fun t' => t'.turnId ≤ k)))

/-- Loop invariant while a contiguous block of dialogue d is being
consumed: the current dialogue is d, the dialogue state is the merge of
the processed dst deltas, and d's report entry is key- and state-sound. -/
def BlockInv (env : Env) (d : String) (processed : List Turn) (st : LoopState) : Prop :=
  st.curDialId = d
  ∧ st.dialogueState = dstateOf env processed
  ∧ ∃ r, alookup d st.bitodPreds = some r
      ∧ TurnKeysOk r.turns processed ∧ TurnStatesOk env r.turns processed

theorem alookup_dictInsert_self {β : Type} (k : String) (v : β) (d : List (String × β)) :
    alookup k (dictInsert k v d) = some v := by
  induction d with
  | nil => simp [dictInsert, alookup]
  | cons p t ih =>
    obtain ⟨k', v'⟩ := p
    by_cases h : k' = k
    · subst h; simp [dictInsert, alookup]
    · simp [dictInsert, alookup, h, ih]

theorem alookup_dictInsert_ne {β : Type} {k k' : String} (v : β) (d : List (String × β))
    (h : k' ≠ k) : alookup k' (dictInsert k v d) = alookup k' d := by
  induction d with
  | nil => simp [dictInsert, alookup, Ne.symm h]
  | cons p t ih =>
    obtain ⟨k₀, v₀⟩ := p
    by_cases h₀ : k₀ = k
    · subst h₀
      simp [dictInsert, alookup, Ne.symm h]
    · simp only [dictInsert, if_neg h₀, alookup, ih]

theorem dictInsert_eq_self {β : Type} {k : String} {v : β} {d : List (String × β)}
    (h : alookup k d = some v) : dictInsert k v d = d := by
  induction d with
  | nil => simp [alookup] at h
  | cons p t ih =>
    obtain ⟨k₀, v₀⟩ := p
    by_cases h₀ : k₀ = k
    · subst h₀
      simp [alookup] at h
      simp [dictInsert, h]
    · simp only [alookup, if_neg h₀] at h
      simp [dictInsert, if_neg h₀, ih h]

theorem dictInsert_of_alookup_none {β : Type} {k : String} (v : β) {d : List (String × β)}
    (h : alookup k d = none) : dictInsert k v d = d ++ [(k, v)] := by
  induction d with
  | nil => simp [dictInsert]
  | cons p t ih =>
    obtain ⟨k₀, v₀⟩ := p
    by_cases h₀ : k₀ = k
    · subst h₀; simp [alookup] at h
    · simp only [alookup, if_neg h₀] at h
      simp [dictInsert, if_neg h₀, ih h]

theorem alookup_eq_none_of_not_mem {β : Type} {k : String} {d : List (String × β)}
    (h : k ∉ d.map Prod.fst) : alookup k d = none := by
  induction d with
  | nil => rfl
  | cons p t ih =>
    obtain ⟨k₀, v₀⟩ := p
    simp only [List.map_cons, List.mem_cons] at h
    push_neg at h
    simp only [alookup, if_neg (Ne.symm h.1), ih h.2]

theorem alookup_self_of_nodupKeys {β : Type} {c : List (String × β)} (hc : NodupKeys c) :
    ∀ p ∈ c, alookup p.1 c = some p.2 := by
  induction c with
  | nil => intro p hp; simp at hp
  | cons q t ih =>
    intro p hp
    obtain ⟨k₀, v₀⟩ := q
    rcases List.mem_cons.1 hp with h | h
    · subst h; simp [alookup]
    · have hk : p.1 ≠ k₀ := by
        intro hh
        have : k₀ ∈ t.map Prod.fst := by
          rw [← hh]; exact List.mem_map_of_mem Prod.fst h
        exact (List.nodup_cons.1 hc).1 this
      simp only [alookup, if_neg (Ne.symm hk)]
      exact ih (List.nodup_cons.1 hc).2 p h

theorem alookup_updateDict_not_mem {k : String} {delta : CMap} (d : CMap)
    (h : k ∉ delta.map Prod.fst) : alookup k (updateDict d delta) = alookup k d := by
  induction delta generalizing d with
  | nil => rfl
  | cons p t ih =>
    obtain ⟨k₀, v₀⟩ := p
    simp only [List.map_cons, List.mem_cons] at h
    push_neg at h
    show alookup k (updateDict (dictInsert k₀ v₀ d) t) = alookup k d
    rw [ih (dictInsert k₀ v₀ d) h.2, alookup_dictInsert_ne _ _ h.1]

theorem alookup_updateDict_mem {delta : CMap} (hc : NodupKeys delta) (d : CMap) :
    ∀ p ∈ delta, alookup p.1 (updateDict d delta) = some p.2 := by
  induction delta generalizing d with
  | nil => intro p hp; simp at hp
  | cons q t ih =>
    intro p hp
    obtain ⟨k₀, v₀⟩ := q
    rcases List.mem_cons.1 hp with h | h
    · subst h
      show alookup k₀ (updateDict (dictInsert k₀ v₀ d) t) = some v₀
      rw [alookup_updateDict_not_mem _ (List.nodup_cons.1 hc).1, alookup_dictInsert_self]
    · exact ih (List.nodup_cons.1 hc).2 (dictInsert k₀ v₀ d) p h

theorem updateDict_eq_self {delta : CMap} {d : CMap}
    (h : ∀ p ∈ delta, alookup p.1 d = some p.2) : updateDict d delta = d := by
  induction delta with
  | nil => rfl
  | cons q t ih =>
    obtain ⟨k₀, v₀⟩ := q
    show updateDict (dictInsert k₀ v₀ d) t = d
    rw [dictInsert_eq_self (h (k₀, v₀) (List.mem_cons_self _ _))]
    exact ih (fun p hp => h p (List.mem_cons_of_mem _ hp))

theorem updateDict_idem {delta : CMap} (hc : NodupKeys delta) (d : CMap) :
    updateDict (updateDict d delta) delta = updateDict d delta :=
  updateDict_eq_self (alookup_updateDict_mem hc d)

theorem alookup_mergeStep_ne {a : String} {S : DState} {p : String × CMap} (h : p.1 ≠ a) :
    alookup a (mergeStep S p) = alookup a S := by
  unfold mergeStep
  cases alookup p.1 S with
  | none => exact alookup_dictInsert_ne _ _ (Ne.symm h)
  | some e => exact alookup_dictInsert_ne _ _ (Ne.symm h)

theorem alookup_mergeState_not_mem {a : String} {D : DState} (S : DState)
    (h : a ∉ D.map Prod.fst) : alookup a (mergeState S D) = alookup a S := by
  induction D generalizing S with
  | nil => rfl
  | cons p t ih =>
    simp only [List.map_cons, List.mem_cons] at h
    push_neg at h
    show alookup a (mergeState (mergeStep S p) t) = alookup a S
    rw [ih (mergeStep S p) h.2, alookup_mergeStep_ne (Ne.symm h.1)]

theorem mergeStep_idem_on {S : DState} {p : String × CMap} {w : CMap}
    (hl : alookup p.1 S = some w) (hw : updateDict w p.2 = w) : mergeStep S p = S := by
  unfold mergeStep
  rw [hl]
  show dictInsert p.1 (updateDict w p.2) S = S
  rw [hw]
  exact dictInsert_eq_self hl

/-- C7 helper: the value the merge leaves under the delta key absorbs a
second application of the same per-key update. -/
theorem mergeStep_lookup_absorb {S : DState} {p : String × CMap} (hp : NodupKeys p.2) :
    ∃ w, alookup p.1 (mergeStep S p) = some w ∧ updateDict w p.2 = w := by
  unfold mergeStep
  cases hS : alookup p.1 S with
  | none =>
    exact ⟨p.2, by rw [alookup_dictInsert_self],
      updateDict_eq_self (alookup_self_of_nodupKeys hp)⟩
  | some e =>
    exact ⟨updateDict e p.2, by rw [alookup_dictInsert_self], updateDict_idem hp e⟩

/-- C7: the dst state merge satisfies the two algebraic laws of the
spec: merging the empty delta changes nothing, and re-applying an
identical delta (a genuine Python dict: unique API keys with unique
slot keys) is a no-op. -/
theorem claim_C7_merge_identity_and_idempotent (S D : DState)
    (hD : NodupKeys D) (hDin : ∀ p ∈ D, NodupKeys p.2) :
    mergeState S [] = S ∧ mergeState (mergeState S D) D = mergeState S D := by
  refine ⟨rfl, ?_⟩
  induction D generalizing S with
  | nil => rfl
  | cons p t ih =>
    have hpD : p.1 ∉ t.map Prod.fst := (List.nodup_cons.1 hD).1
    show mergeState (mergeStep (mergeState (mergeStep S p) t) p) t
        = mergeState (mergeStep S p) t
    obtain ⟨w, hw, habs⟩ :=
      @mergeStep_lookup_absorb S p (hDin p (List.mem_cons_self _ _))
    have hY : alookup p.1 (mergeState (mergeStep S p) t) = some w := by
      rw [alookup_mergeState_not_mem _ hpD, hw]
    rw [mergeStep_idem_on hY habs]
    exact ih (mergeStep S p) (List.nodup_cons.1 hD).2
      (fun q hq => hDin q (List.mem_cons_of_mem _ hq))

/-- Witness for C7 at a concrete state and delta. -/
theorem claim_C7_witness :
    NodupKeys [("hotel", [("star", "5")]), ("rest", [("food", "thai")])]
    ∧ (∀ p ∈ [("hotel", [("star", "5")]), ("rest", [("food", "thai")])], NodupKeys p.2)
    ∧ (mergeState [("hotel", [("price", "cheap")])] [] = [("hotel", [("price", "cheap")])]
       ∧ mergeState
           (mergeState [("hotel", [("price", "cheap")])]
             [("hotel", [("star", "5")]), ("rest", [("food", "thai")])])
           [("hotel", [("star", "5")]), ("rest", [("food", "thai")])]
         = mergeState [("hotel", [("price", "cheap")])]
             [("hotel", [("star", "5")]), ("rest", [("food", "thai")])]) :=
  ⟨by decide, by decide,
    claim_C7_merge_identity_and_idempotent [("hotel", [("price", "cheap")])]
      [("hotel", [("star", "5")]), ("rest", [("food", "thai")])] (by decide) (by decide)⟩

theorem dropWhile_append_of_allSpace {a : List Char} (b : List Char)
    (h : ∀ c ∈ a, isPySpace c) :
    (a ++ b).dropWhile isPySpace = b.dropWhile isPySpace := by
  induction a with
  | nil => rfl
  | cons c t ih =>
    have hc : isPySpace c := h c (List.mem_cons_self _ _)
    simp only [List.cons_append, List.dropWhile_cons, hc, if_true]
    exact ih (fun c hcm => h c (List.mem_cons_of_mem _ hcm))

theorem dropWhile_eq_nil_of_allSpace {a : List Char} (h : ∀ c ∈ a, isPySpace c) :
    a.dropWhile isPySpace = [] := by
  have hb := @dropWhile_append_of_allSpace a [] h
  simpa using hb

theorem allSpace_wsPreOf (s : List Char) : ∀ c ∈ wsPreOf s, isPySpace c :=
  fun _ hc => List.mem_takeWhile_imp hc

theorem allSpace_wsSufOf (s : List Char) : ∀ c ∈ wsSufOf s, isPySpace c :=
  fun _ hc => List.mem_takeWhile_imp (List.mem_reverse.1 hc)

theorem strip_decomp (s : List Char) : s = wsPreOf s ++ stripL s ++ wsSufOf s := by
  have h1 : s = wsPreOf s ++ lstripL s :=
    (List.takeWhile_append_dropWhile isPySpace s).symm
  have h2 : lstripL s = stripL s ++ wsSufOf s := by
    show lstripL s = rstripL (lstripL s) ++ wsSufOf s
    conv_lhs =>
      rw [← List.reverse_reverse (lstripL s),
        ← List.takeWhile_append_dropWhile isPySpace (lstripL s).reverse]
    rw [List.reverse_append]
    rfl
  rw [List.append_assoc, ← h2, ← h1]

theorem lstripL_eq_self_of_stripL {v : List Char} (hv : stripL v = v) : lstripL v = v := by
  have h1 : (lstripL v).length ≤ v.length := (List.dropWhile_suffix _).length_le
  have h2 : v.length ≤ (lstripL v).length := by
    have hs : (stripL v).length ≤ (lstripL v).length := by
      show (rstripL (lstripL v)).length ≤ (lstripL v).length
      unfold rstripL
      rw [List.length_reverse]
      calc ((lstripL v).reverse.dropWhile isPySpace).length
          ≤ (lstripL v).reverse.length := (List.dropWhile_suffix _).length_le
        _ = (lstripL v).length := List.length_reverse _
    rw [hv] at hs
    exact hs
  exact (List.dropWhile_suffix _).eq_of_length (le_antisymm h1 h2)

theorem rstripL_eq_self_of_stripL {v : List Char} (hv : stripL v = v) : rstripL v = v := by
  have h := lstripL_eq_self_of_stripL hv
  unfold stripL at hv
  rw [h] at hv
  exact hv

theorem stripL_sandwich {ws1 ws2 v : List Char} (h1 : ∀ c ∈ ws1, isPySpace c)
    (h2 : ∀ c ∈ ws2, isPySpace c) (hv : stripL v = v) :
    stripL (ws1 ++ (v ++ ws2)) = v := by
  cases v with
  | nil =>
    have hall : ∀ c ∈ ws1 ++ (([] : List Char) ++ ws2), isPySpace c := by
      intro c hc
      rcases List.mem_append.1 hc with hc | hc
      · exact h1 c hc
      · exact h2 c (by simpa using hc)
    show rstripL (lstripL (ws1 ++ ([] ++ ws2))) = []
    unfold lstripL
    rw [dropWhile_eq_nil_of_allSpace hall]
    rfl
  | cons c t =>
    have hv2 := rstripL_eq_self_of_stripL hv
    have hc : ¬ (isPySpace c = true) := by
      intro hcs
      have hv1 := lstripL_eq_self_of_stripL hv
      have hstep : lstripL (c :: t) = lstripL t := by
        simp [lstripL, List.dropWhile_cons, hcs]
      rw [hv1] at hstep
      have hl : (lstripL t).length ≤ t.length := (List.dropWhile_suffix _).length_le
      rw [← hstep] at hl
      simp at hl
    show rstripL (lstripL (ws1 ++ ((c :: t) ++ ws2))) = c :: t
    have e1 : lstripL (ws1 ++ ((c :: t) ++ ws2)) = (c :: t) ++ ws2 := by
      unfold lstripL
      rw [dropWhile_append_of_allSpace _ h1]
      simp only [List.cons_append, List.dropWhile_cons, hc, Bool.false_eq_true, if_false]
    rw [e1]
    unfold rstripL
    rw [List.reverse_append]
    rw [dropWhile_append_of_allSpace _ (fun x hx => h2 x (List.mem_reverse.1 hx))]
    have e2 : ((c :: t).reverse.dropWhile isPySpace) = (c :: t).reverse := by
      have h3 := congrArg List.reverse hv2
      unfold rstripL at h3
      simpa using h3
    rw [e2, List.reverse_reverse]

theorem isPrefixOf_append_self (M x : List Char) : M.isPrefixOf (M ++ x) = true := by
  induction M with
  | nil => simp [List.isPrefixOf]
  | cons c t ih => simp [List.cons_append, List.isPrefixOf, ih]

theorem isPrefixOf_append_of_le_length {M y : List Char} (x : List Char)
    (h : M.length ≤ y.length) : M.isPrefixOf (y ++ x) = M.isPrefixOf y := by
  induction M generalizing y with
  | nil => simp [List.isPrefixOf]
  | cons c t ih =>
    cases y with
    | nil => simp at h
    | cons d u =>
      simp only [List.length_cons, Nat.succ_le_succ_iff] at h
      simp [List.cons_append, List.isPrefixOf, @ih u h]

theorem pyReplaceAllFuel_of_not_hasSub {o : Char} {os new : List Char} :
    ∀ {b : List Char} {f : Nat}, b.length ≤ f → hasSub b (o :: os) = false →
      pyReplaceAllFuel o os new f b = b := by
  intro b
  induction b with
  | nil => intro f _ _; cases f <;> rfl
  | cons c t ih =>
    intro f hf h
    simp only [hasSub, Bool.or_eq_false_iff] at h
    cases f with
    | zero => simp at hf
    | succ n =>
      rw [pyReplaceAllFuel]
      rw [if_neg (by simp [h.1])]
      have hb : t.length ≤ n := by
        simp only [List.length_cons] at hf
        omega
      rw [ih hb h.2]

theorem pyReplaceAllFuel_single {o : Char} {os new b : List Char} : ∀ (a : List Char) {f : Nat},
    (a ++ ((o :: os) ++ b)).length ≤ f →
    (∀ i < a.length, ¬ (o :: os).isPrefixOf ((a ++ ((o :: os) ++ b)).drop i) = true) →
    hasSub b (o :: os) = false →
    pyReplaceAllFuel o os new f (a ++ ((o :: os) ++ b)) = a ++ new ++ b := by
  intro a
  induction a with
  | nil =>
    intro f hf _ hB
    simp only [List.nil_append, List.cons_append] at hf ⊢
    cases f with
    | zero => simp at hf
    | succ n =>
      rw [pyReplaceAllFuel]
      rw [if_pos (by
        have hps := isPrefixOf_append_self (o :: os) b
        simp only [List.cons_append] at hps
        exact hps)]
      have hd : (os ++ b).drop os.length = b := List.drop_left os b
      have hb : b.length ≤ n := by
        simp only [List.length_cons, List.length_append] at hf
        omega
      rw [hd, pyReplaceAllFuel_of_not_hasSub hb hB]
  | cons c a' ih =>
    intro f hf hA hB
    cases f with
    | zero => simp at hf
    | succ n =>
      have h0 : ¬ (o :: os).isPrefixOf (c :: (a' ++ (o :: (os ++ b)))) = true := by
        have := hA 0 (by simp)
        simpa using this
      simp only [List.cons_append]
      rw [pyReplaceAllFuel]
      rw [if_neg (by simpa using h0)]
      have hlen : (a' ++ ((o :: os) ++ b)).length ≤ n := by
        simp only [List.cons_append, List.length_cons, List.length_append] at hf ⊢
        omega
      have hrec := ih hlen (fun i hi => by
        have := hA (i + 1) (by simp; omega)
        simpa using this) hB
      simp only [List.cons_append] at hrec ⊢
      rw [hrec]

theorem pyReplaceAll_single {old new a b : List Char} (hold : old ≠ [])
    (hA : ∀ i < a.length, ¬ old.isPrefixOf ((a ++ (old ++ b)).drop i) = true)
    (hB : hasSub b old = false) :
    pyReplaceAll (a ++ (old ++ b)) old new = a ++ new ++ b := by
  cases old with
  | nil => exact absurd rfl hold
  | cons o os => exact pyReplaceAllFuel_single a (Nat.le_refl _) hA hB

theorem findGroup_decomp {s g post : List Char} {u : Bool}
    (h : findGroup s = some (g, post, u)) :
    s = g ++ (if u then '<' :: post else post) ∧ (∀ c ∈ g, c ≠ '<' ∧ c ≠ '\n') := by
  induction s generalizing g post u with
  | nil =>
    simp [findGroup] at h
    obtain ⟨h1, h2, h3⟩ := h
    subst h1; subst h2; subst h3
    simp
  | cons c t ih =>
    by_cases h1 : c = '<'
    · subst h1
      simp [findGroup] at h
      obtain ⟨h1, h2, h3⟩ := h
      subst h1; subst h2; subst h3
      simp
    · by_cases h2 : c = '\n'
      · subst h2
        simp only [findGroup] at h
        rw [if_neg (show ¬('\n' = '<') by decide), if_pos trivial] at h
        by_cases h3 : t = []
        · rw [if_pos h3] at h
          simp only [Option.some.injEq, Prod.mk.injEq] at h
          obtain ⟨h4, h5, h6⟩ := h
          subst h4; subst h5; subst h6
          simp [h3]
        · rw [if_neg h3] at h
          exact absurd h (by simp)
      · simp only [findGroup, if_neg h1, if_neg h2] at h
        cases hfg : findGroup t with
        | none => rw [hfg] at h; exact absurd h (by simp)
        | some r =>
          rw [hfg] at h
          obtain ⟨g', post', u'⟩ := r
          simp only [Option.map_some', Option.some.injEq, Prod.mk.injEq] at h
          obtain ⟨h4, h5, h6⟩ := h
          subst h5; subst h6
          obtain ⟨hd, hchars⟩ := ih hfg
          constructor
          · rw [← h4]
            simp only [List.cons_append]
            rw [← hd]
          · intro x hx
            rw [← h4] at hx
            rcases List.mem_cons.1 hx with hx | hx
            · subst hx; exact ⟨h1, h2⟩
            · exact hchars x hx

theorem findGroup_of_clean {l : List Char} (r : List Char)
    (hg : ∀ c ∈ l, c ≠ '<' ∧ c ≠ '\n') :
    findGroup (l ++ '<' :: r) = some (l, r, true) := by
  induction l with
  | nil => simp [findGroup]
  | cons c t ih =>
    have hc := hg c (List.mem_cons_self _ _)
    show findGroup (c :: (t ++ '<' :: r)) = some (c :: t, r, true)
    simp only [findGroup]
    rw [if_neg hc.1, if_neg hc.2, ih (fun x hx => hg x (List.mem_cons_of_mem _ hx))]
    rfl

theorem matchHere_none_of_not_prefix {M s : List Char} (h : ¬ M.isPrefixOf s = true) :
    matchHere M s = none := by
  unfold matchHere
  rw [if_neg h]

theorem searchFrom_of_matchHere {M s : List Char} {r : List Char × List Char × Bool}
    (h : matchHere M s = some r) : searchFrom M s = some ⟨[], r.1, r.2.1, r.2.2⟩ := by
  cases s with
  | nil => simp [searchFrom, h]
  | cons c t => simp [searchFrom, h]

theorem searchFrom_append {M rest : List Char} {g post : List Char} {u : Bool}
    (pre : List Char)
    (hpre : ∀ i < pre.length, ¬ M.isPrefixOf ((pre ++ rest).drop i) = true)
    (hM : matchHere M rest = some (g, post, u)) :
    searchFrom M (pre ++ rest) = some ⟨pre, g, post, u⟩ := by
  induction pre with
  | nil => simpa using searchFrom_of_matchHere hM
  | cons c pre' ih =>
    have h0 : matchHere M (c :: (pre' ++ rest)) = none := by
      apply matchHere_none_of_not_prefix
      have := hpre 0 (by simp)
      simpa using this
    show searchFrom M (c :: (pre' ++ rest)) = _
    rw [searchFrom, h0]
    have hrec := ih (fun i hi => by
      have := hpre (i + 1) (by simp; omega)
      simpa using this)
    rw [hrec]
    rfl

theorem matchHere_decomp {M s : List Char} {g post : List Char} {u : Bool}
    (h : matchHere M s = some (g, post, u)) :
    s = M ++ (g ++ (if u then '<' :: post else post)) ∧ (∀ c ∈ g, c ≠ '<' ∧ c ≠ '\n') := by
  unfold matchHere at h
  by_cases hp : M.isPrefixOf s = true
  · rw [if_pos hp] at h
    obtain ⟨hd, hchars⟩ := findGroup_decomp h
    refine ⟨?_, hchars⟩
    have hpre : M <+: s := by
      rw [← List.isPrefixOf_iff_prefix]
      exact hp
    obtain ⟨rest, hrest⟩ := hpre
    have hdrop : s.drop M.length = rest := by
      rw [← hrest, List.drop_left]
    rw [hdrop] at hd
    rw [← hrest, ← hd]
  · rw [if_neg hp] at h
    exact absurd h (by simp)

theorem searchFrom_decomp {M s : List Char} {m : ReMatch} (h : searchFrom M s = some m) :
    s = m.pre ++ (M ++ (m.grp ++ (if m.usedLt then '<' :: m.post else m.post)))
    ∧ (∀ c ∈ m.grp, c ≠ '<' ∧ c ≠ '\n') := by
  induction s generalizing m with
  | nil =>
    rw [searchFrom] at h
    cases hmh : matchHere M [] with
    | none => rw [hmh] at h; exact absurd h (by simp)
    | some r =>
      obtain ⟨g, post, u⟩ := r
      rw [hmh] at h
      simp only [Option.some.injEq] at h
      subst h
      obtain ⟨hd, hchars⟩ := matchHere_decomp hmh
      exact ⟨by simpa using hd, hchars⟩
  | cons c t ih =>
    rw [searchFrom] at h
    cases hmh : matchHere M (c :: t) with
    | some r =>
      rw [hmh] at h
      simp only [Option.some.injEq] at h
      subst h
      obtain ⟨hd, hchars⟩ := matchHere_decomp hmh
      exact ⟨by simpa using hd, hchars⟩
    | none =>
      rw [hmh] at h
      cases hs : searchFrom M t with
      | none => rw [hs] at h; exact absurd h (by simp)
      | some m' =>
        rw [hs] at h
        simp only [Option.map_some', Option.some.injEq] at h
        subst h
        obtain ⟨hd, hchars⟩ := ih hs
        refine ⟨?_, hchars⟩
        simp only [List.cons_append]
        rw [← hd]

theorem subAllFuel_of_none {M repl p : List Char} (h : searchFrom M p = none) :
    ∀ f, subAllFuel M repl f p = p := by
  intro f
  cases f with
  | zero => rfl
  | succ n => simp [subAllFuel, h]

theorem subAll_single {M repl s : List Char} {m : ReMatch} (hold : M ≠ [])
    (h : searchFrom M s = some m) (hpost : searchFrom M m.post = none) :
    subAll M repl s = m.pre ++ repl ++ m.post := by
  have hne : s ≠ [] := by
    intro hs
    obtain ⟨hd, _⟩ := searchFrom_decomp h
    rw [hs] at hd
    rcases List.append_eq_nil.1 hd.symm with ⟨_, h2⟩
    rcases List.append_eq_nil.1 h2 with ⟨hM, _⟩
    exact hold hM
  unfold subAll
  cases hl : s.length with
  | zero => exact absurd (List.length_eq_zero.1 hl) hne
  | succ n =>
    rw [subAllFuel, h]
    show m.pre ++ repl ++ subAllFuel M repl n m.post = m.pre ++ repl ++ m.post
    rw [subAllFuel_of_none hpost]

theorem stripL_lt_wrap (l : List Char) : stripL ('<' :: (l ++ ['<'])) = '<' :: (l ++ ['<']) := by
  unfold stripL lstripL rstripL
  rw [List.dropWhile_cons, if_neg (by decide)]
  have hrev : ('<' :: (l ++ ['<'])).reverse = '<' :: (l.reverse ++ ['<']) := by simp
  rw [hrev, List.dropWhile_cons, if_neg (by decide)]
  simp

theorem mem_wsPreOf_sub {c : Char} {s : List Char} (h : c ∈ wsPreOf s) : c ∈ s :=
  (List.takeWhile_prefix _).subset h

theorem mem_wsSufOf_sub {c : Char} {s : List Char} (h : c ∈ wsSufOf s) : c ∈ s := by
  have h1 : c ∈ (lstripL s).reverse := (List.takeWhile_prefix _).subset (List.mem_reverse.1 h)
  exact (List.dropWhile_suffix _).subset (List.mem_reverse.1 h1)

/-- Shared analysis of replace_capturing_group on an input where the
pattern matches exactly once with a <-terminated group and the stripped
captured run is nonempty and occurs only as itself inside the whole
match: the result rewrites exactly the captured run to the replacement
and leaves every other character of the input in place. -/
theorem replace_capturing_group_single (input v : List Char) (m : ReMatch)
    (hs : searchFrom stateMarker input = some m)
    (hu : m.usedLt = true)
    (hone : searchFrom stateMarker m.post = none)
    (hA : ∀ i < (stateMarker ++ wsPreOf m.grp).length,
      ¬ (stripL m.grp).isPrefixOf
        (((stateMarker ++ wsPreOf m.grp) ++
          (stripL m.grp ++ (wsSufOf m.grp ++ ['<']))).drop i) = true)
    (hB : hasSub (wsSufOf m.grp ++ ['<']) (stripL m.grp) = false)
    (hcap : stripL m.grp ≠ []) :
    replace_capturing_group stateMarker input v
      = some (m.pre ++ ((stateMarker ++ wsPreOf m.grp) ++ (v ++ (wsSufOf m.grp ++ ['<']))
          ++ m.post))
    ∧ input = m.pre ++ ((stateMarker ++ wsPreOf m.grp)
        ++ (stripL m.grp ++ (wsSufOf m.grp ++ ['<'])) ++ m.post) := by
  have hgrp : m.grp = wsPreOf m.grp ++ stripL m.grp ++ wsSufOf m.grp := strip_decomp m.grp
  have hdec := searchFrom_decomp hs
  have hinput : input = m.pre ++ (stateMarker ++ (m.grp ++ ('<' :: m.post))) := by
    have := hdec.1
    rw [hu] at this
    simpa using this
  have hwholeRaw : stateMarker ++ m.grp ++ (if m.usedLt then ['<'] else [])
      = '<' :: (("state> ".data ++ m.grp) ++ ['<']) := by
    rw [hu]
    simp [stateMarker]
  have hwhole : stripL (stateMarker ++ m.grp ++ (if m.usedLt then ['<'] else []))
      = (stateMarker ++ wsPreOf m.grp) ++ ((stripL m.grp) ++ (wsSufOf m.grp ++ ['<'])) := by
    rw [hwholeRaw, stripL_lt_wrap]
    conv_lhs => rw [show ("state> ".data : List Char) ++ m.grp
      = "state> ".data ++ (wsPreOf m.grp ++ stripL m.grp ++ wsSufOf m.grp) from by rw [← hgrp]]
    simp [stateMarker, List.append_assoc]
  have hnw : pyReplaceAll
      (stripL (stateMarker ++ m.grp ++ (if m.usedLt then ['<'] else [])))
      (stripL m.grp) v
      = (stateMarker ++ wsPreOf m.grp) ++ v ++ (wsSufOf m.grp ++ ['<']) := by
    rw [hwhole]
    have h1 := @pyReplaceAll_single (stripL m.grp) v (stateMarker ++ wsPreOf m.grp)
      (wsSufOf m.grp ++ ['<']) hcap hA hB
    rw [h1]
  have hsub : subAll stateMarker
      ((stateMarker ++ wsPreOf m.grp) ++ v ++ (wsSufOf m.grp ++ ['<'])) input
      = m.pre ++ ((stateMarker ++ wsPreOf m.grp) ++ v ++ (wsSufOf m.grp ++ ['<'])) ++ m.post :=
    subAll_single (by decide) hs hone
  constructor
  · unfold replace_capturing_group
    rw [hs]
    simp only [hnw, hsub]
    simp [List.append_assoc]
  · rw [hinput]
    conv_lhs => rw [hgrp]
    simp [List.append_assoc]

/-- C3 (corrected): when the state pattern matches exactly once, the
match is <-terminated, and the stripped captured run is nonempty and
occurs nowhere else in the stripped whole match, replace substitutes
the captured run with the replacement and leaves every other character
of the text unchanged.  (As originally stated the claim is false: the
source rewrites every pattern match and every occurrence of the
captured run inside the whole match, see the counterexample.) -/
theorem claim_C3_replace_first_occurrence_amended (input v : List Char) (m : ReMatch)
    (hs : searchFrom stateMarker input = some m)
    (hu : m.usedLt = true)
    (hone : searchFrom stateMarker m.post = none)
    (hA : ∀ i < (stateMarker ++ wsPreOf m.grp).length,
      ¬ (stripL m.grp).isPrefixOf
        (((stateMarker ++ wsPreOf m.grp) ++
          (stripL m.grp ++ (wsSufOf m.grp ++ ['<']))).drop i) = true)
    (hB : hasSub (wsSufOf m.grp ++ ['<']) (stripL m.grp) = false)
    (hcap : stripL m.grp ≠ []) :
    replace_capturing_group stateMarker input v
      = some (m.pre ++ ((stateMarker ++ wsPreOf m.grp) ++ (v ++ (wsSufOf m.grp ++ ['<']))
          ++ m.post))
    ∧ input = m.pre ++ ((stateMarker ++ wsPreOf m.grp)
        ++ (stripL m.grp ++ (wsSufOf m.grp ++ ['<'])) ++ m.post) :=
  replace_capturing_group_single input v m hs hu hone hA hB hcap

/-- Witness for the amended C3 on a concrete single-match text. -/
theorem claim_C3_witness :
    replace_capturing_group stateMarker "<state> q <x".data "XY".data
      = some ("<state> XY <x".data) := by
  have h := claim_C3_replace_first_occurrence_amended "<state> q <x".data "XY".data
    ⟨[], "q ".data, "x".data, true⟩ (by decide) rfl (by decide) (by decide) (by decide)
    (by decide)
  rw [h.1]
  rfl

/-- C3 (counterexample): with two pattern matches, the source rewrites
the second match as well, so later text is not left unchanged. -/
theorem claim_C3_counterexample :
    (searchFrom stateMarker "<state> q <x <state> b".data).isSome = true
    ∧ replace_capturing_group stateMarker "<state> q <x <state> b".data "X".data
        = some ("<state> X <x <state> X <".data)
    ∧ "<state> X <x <state> X <".data ≠ "<state> X <x <state> b".data := by
  refine ⟨rfl, rfl, by decide⟩

/-- C8 (corrected): the replace-then-extract round trip returns the
value written provided the marker occurs only at the match (not in the
prefix and not after), the match is <-terminated, the stripped captured
run is nonempty and occurs only as itself inside the whole match, and
the replacement contains no < and no newline and carries no surrounding
whitespace.  (As originally stated the claim is false: extraction stops
at the first < of the replacement and strips whitespace, see the
counterexample.) -/
theorem claim_C8_roundtrip_amended (input v : List Char) (m : ReMatch)
    (hs : searchFrom stateMarker input = some m)
    (hu : m.usedLt = true)
    (hone : searchFrom stateMarker m.post = none)
    (hpre : ∀ i < m.pre.length, ¬ stateMarker.isPrefixOf ((m.pre ++ stateMarker).drop i) = true)
    (hA : ∀ i < (stateMarker ++ wsPreOf m.grp).length,
      ¬ (stripL m.grp).isPrefixOf
        (((stateMarker ++ wsPreOf m.grp) ++
          (stripL m.grp ++ (wsSufOf m.grp ++ ['<']))).drop i) = true)
    (hB : hasSub (wsSufOf m.grp ++ ['<']) (stripL m.grp) = false)
    (hcap : stripL m.grp ≠ [])
    (hv1 : ∀ c ∈ v, c ≠ '<' ∧ c ≠ '\n')
    (hv2 : stripL v = v) :
    (replace_capturing_group stateMarker input v).bind (extract_capturing_group stateMarker)
      = some v := by
  obtain ⟨hrep, _⟩ := replace_capturing_group_single input v m hs hu hone hA hB hcap
  rw [hrep]
  show extract_capturing_group stateMarker
    (m.pre ++ ((stateMarker ++ wsPreOf m.grp) ++ (v ++ (wsSufOf m.grp ++ ['<'])) ++ m.post))
    = some v
  have hout : m.pre ++ ((stateMarker ++ wsPreOf m.grp) ++ (v ++ (wsSufOf m.grp ++ ['<']))
        ++ m.post)
      = m.pre ++ (stateMarker ++ ((wsPreOf m.grp ++ (v ++ wsSufOf m.grp)) ++ ('<' :: m.post))) := by
    simp [List.append_assoc]
  rw [hout]
  have hgrpchars := (searchFrom_decomp hs).2
  have hgc : ∀ c ∈ wsPreOf m.grp ++ (v ++ wsSufOf m.grp), c ≠ '<' ∧ c ≠ '\n' := by
    intro c hc
    rcases List.mem_append.1 hc with hc | hc
    · exact hgrpchars c (mem_wsPreOf_sub hc)
    · rcases List.mem_append.1 hc with hc | hc
      · exact hv1 c hc
      · exact hgrpchars c (mem_wsSufOf_sub hc)
  have hfg : findGroup ((wsPreOf m.grp ++ (v ++ wsSufOf m.grp)) ++ '<' :: m.post)
      = some (wsPreOf m.grp ++ (v ++ wsSufOf m.grp), m.post, true) :=
    findGroup_of_clean m.post hgc
  have hmh : matchHere stateMarker
      (stateMarker ++ ((wsPreOf m.grp ++ (v ++ wsSufOf m.grp)) ++ ('<' :: m.post)))
      = some (wsPreOf m.grp ++ (v ++ wsSufOf m.grp), m.post, true) := by
    unfold matchHere
    rw [if_pos (isPrefixOf_append_self _ _), List.drop_left]
    exact hfg
  have hpre' : ∀ i < m.pre.length,
      ¬ stateMarker.isPrefixOf ((m.pre
        ++ (stateMarker ++ ((wsPreOf m.grp ++ (v ++ wsSufOf m.grp)) ++ ('<' :: m.post)))).drop i)
        = true := by
    intro i hi
    have hd : (m.pre ++ (stateMarker
          ++ ((wsPreOf m.grp ++ (v ++ wsSufOf m.grp)) ++ ('<' :: m.post)))).drop i
        = ((m.pre ++ stateMarker).drop i)
          ++ ((wsPreOf m.grp ++ (v ++ wsSufOf m.grp)) ++ ('<' :: m.post)) := by
      rw [← List.append_assoc]
      exact List.drop_append_of_le_length (by simp [stateMarker]; omega)
    rw [hd]
    rw [isPrefixOf_append_of_le_length _ (by
      simp only [List.length_drop, List.length_append]
      omega)]
    exact hpre i hi
  have hsf := searchFrom_append m.pre hpre' hmh
  unfold extract_capturing_group
  rw [hsf]
  have hstrip : stripL (wsPreOf m.grp ++ (v ++ wsSufOf m.grp)) = v :=
    stripL_sandwich (allSpace_wsPreOf m.grp) (allSpace_wsSufOf m.grp) hv2
  simp [hstrip]

/-- Witness for the amended C8 on a concrete single-match text. -/
theorem claim_C8_witness :
    (replace_capturing_group stateMarker "<state> q <x".data "Hello".data).bind
      (extract_capturing_group stateMarker) = some ("Hello".data) :=
  claim_C8_roundtrip_amended "<state> q <x".data "Hello".data
    ⟨[], "q ".data, "x".data, true⟩ (by decide) rfl (by decide) (by decide) (by decide)
    (by decide) (by decide) (by decide) (by decide)

/-- C8 (counterexample): a replacement containing < does not survive
the round trip - extraction stops at the first <. -/
theorem claim_C8_counterexample :
    (replace_capturing_group stateMarker "<state> q".data "b<c".data).bind
      (extract_capturing_group stateMarker) = some ("b".data)
    ∧ ("b".data : List Char) ≠ "b<c".data :=
  ⟨rfl, by decide⟩

/-- C5: a turn whose dialogue id differs from the previous turn's
resets all per-dialogue substate before the body runs: empty dialogue
state, undefined ActiveAPI, both span texts the string null, the
current dialogue id updated, and a fresh empty report entry installed
for the new dialogue id; the turn is then processed from that state. -/
theorem claim_C5_new_dialogue_reset (env : Env) (opo : Bool) (st : LoopState) (t : Turn)
    (h : t.dialId ≠ st.curDialId) :
    (applyDialogueReset st t.dialId).dialogueState = []
    ∧ (applyDialogueReset st t.dialId).activeApi = none
    ∧ (applyDialogueReset st t.dialId).newStateText = "null"
    ∧ (applyDialogueReset st t.dialId).newKnowledgeText = "null"
    ∧ (applyDialogueReset st t.dialId).curDialId = t.dialId
    ∧ alookup t.dialId (applyDialogueReset st t.dialId).bitodPreds = some emptyDialReport
    ∧ processTurn env opo st t = processTurnBody env opo (applyDialogueReset st t.dialId) t := by
  unfold processTurn applyDialogueReset
  simp [if_neg (Ne.symm h), alookup_dictInsert_self]

/-- Witness for C5 at the first turn of a concrete stream. -/
theorem claim_C5_witness :
    alookup "A" (applyDialogueReset initialLoopState "A").bitodPreds = some emptyDialReport
    ∧ (applyDialogueReset initialLoopState "A").dialogueState = [] := by
  have h := claim_C5_new_dialogue_reset envTest false initialLoopState tA1dst (by decide)
  exact ⟨h.2.2.2.2.2.1, h.1⟩

theorem applyDialogueReset_lists (st : LoopState) (d : String) :
    (applyDialogueReset st d).exampleIds = st.exampleIds
    ∧ (applyDialogueReset st d).contexts = st.contexts
    ∧ (applyDialogueReset st d).predictions = st.predictions
    ∧ (applyDialogueReset st d).answers = st.answers := by
  unfold applyDialogueReset
  split <;> exact ⟨rfl, rfl, rfl, rfl⟩

theorem apiApply_frame {env : Env} {X : LoopState} {t : Turn} {st' : LoopState}
    (hp : apiApply env X t = .ok st') :
    st'.exampleIds = X.exampleIds ∧ st'.contexts = X.contexts
    ∧ st'.predictions = X.predictions ∧ st'.answers = X.answers
    ∧ st'.curDialId = X.curDialId ∧ st'.dialogueState = X.dialogueState
    ∧ st'.activeApi = X.activeApi ∧ st'.newStateText = X.newStateText := by
  unfold apiApply at hp
  repeat split at hp
  all_goals cases hp
  all_goals exact ⟨rfl, rfl, rfl, rfl, rfl, rfl, rfl, rfl⟩

theorem processTurn_lists {env : Env} {opo : Bool} {st : LoopState} {t : Turn}
    {st' : LoopState} (hp : processTurn env opo st t = .ok st') :
    st'.exampleIds = st.exampleIds ++ [exampleIdOf t]
    ∧ st'.contexts = st.contexts ++ [t.context]
    ∧ st'.predictions = st.predictions ++ [[t.prediction]]
    ∧ (opo = false → st'.answers = st.answers ++ [t.answer]) := by
  obtain ⟨he, hc, hpd, ha⟩ := applyDialogueReset_lists st t.dialId
  unfold processTurn processTurnBody at hp
  cases hci : computeInput env (applyDialogueReset st t.dialId) t with
  | error e => rw [hci] at hp; exact absurd hp (by simp)
  | ok pr =>
    rw [hci] at hp
    obtain ⟨it, nst⟩ := pr
    dsimp only at hp
    by_cases h1 : t.trainTarget = "dst"
    · rw [if_pos h1] at hp
      cases hp
      refine ⟨?_, ?_, ?_, fun ho => ?_⟩
      · simp [dstApply, appendOutputs, he]
      · simp [dstApply, appendOutputs, hc]
      · simp [dstApply, appendOutputs, hpd]
      · simp [dstApply, appendOutputs, ho, ha]
    · rw [if_neg h1] at hp
      by_cases h2 : t.trainTarget = "api"
      · rw [if_pos h2] at hp
        obtain ⟨e1, e2, e3, e4, _⟩ := apiApply_frame hp
        refine ⟨?_, ?_, ?_, fun ho => ?_⟩
        · rw [e1]; simp [appendOutputs, he]
        · rw [e2]; simp [appendOutputs, hc]
        · rw [e3]; simp [appendOutputs, hpd]
        · rw [e4]; simp [appendOutputs, ho, ha]
      · rw [if_neg h2] at hp
        by_cases h3 : t.trainTarget = "response"
        · rw [if_pos h3] at hp
          cases hp
          refine ⟨?_, ?_, ?_, fun ho => ?_⟩
          · simp [responseApply, appendOutputs, he]
          · simp [responseApply, appendOutputs, hc]
          · simp [responseApply, appendOutputs, hpd]
          · simp [responseApply, appendOutputs, ho, ha]
        · rw [if_neg h3] at hp
          exact absurd hp (by simp)

/-- C10: over any successfully consumed stream the parallel output
lists each gain exactly one entry per turn in stream order - so they
all have equal length, and index i of every list refers to turn i; the
gold-answer list does too whenever answers are decoded
(output_predictions_only false). -/
theorem claim_C10_parallel_lists (env : Env) (opo : Bool) (st0 stF : LoopState)
    (ts : List Turn) (h : runLoop env opo st0 ts = .ok stF) :
    stF.exampleIds = st0.exampleIds ++ ts.map exampleIdOf
    ∧ stF.contexts = st0.contexts ++ ts.map (fun t => t.context)
    ∧ stF.predictions = st0.predictions ++ ts.map (fun t => [t.prediction])
    ∧ (opo = false → stF.answers = st0.answers ++ ts.map (fun t => t.answer)) := by
  induction ts generalizing st0 with
  | nil =>
    cases h
    simp
  | cons t ts ih =>
    rw [runLoop] at h
    cases hp : processTurn env opo st0 t with
    | error e => rw [hp] at h; exact absurd h (by simp)
    | ok st1 =>
      rw [hp] at h
      obtain ⟨he, hc, hpd, ha⟩ := processTurn_lists hp
      obtain ⟨ie, ic, ipd, ia⟩ := ih st1 h
      refine ⟨?_, ?_, ?_, fun ho => ?_⟩
      · rw [ie, he]; simp
      · rw [ic, hc]; simp
      · rw [ipd, hpd]; simp
      · rw [ia ho, ha ho]; simp

/-- Witness for C10 on a concrete three-turn stream. -/
theorem claim_C10_witness :
    ∃ stF, runLoop envTest false initialLoopState [tA1dst, tA2apiOk, tA4response] = .ok stF
    ∧ stF.exampleIds = ["bitod/A/1/dst", "bitod/A/2/api", "bitod/A/4/response"]
    ∧ stF.contexts = [tA1dst.context, tA2apiOk.context, tA4response.context]
    ∧ stF.predictions = [["P1"], ["yes"], ["hello"]]
    ∧ stF.answers = ["g1", "g2", "g4"] := by
  cases hrun : runLoop envTest false initialLoopState [tA1dst, tA2apiOk, tA4response] with
  | error e =>
    have hok : (runLoop envTest false initialLoopState
        [tA1dst, tA2apiOk, tA4response]).isOk = true := rfl
    rw [hrun] at hok
    simp [Except.isOk, Except.toBool] at hok
  | ok stF =>
    obtain ⟨he, hc, hpd, ha⟩ :=
      claim_C10_parallel_lists envTest false initialLoopState stF _ hrun
    refine ⟨stF, rfl, ?_, ?_, ?_, ?_⟩
    · rw [he]; rfl
    · rw [hc]; rfl
    · rw [hpd]; rfl
    · rw [ha rfl]; rfl

theorem report_bind_recordApiText (preds : List (String × DialReport)) (d k txt : String) :
    (alookup d (recordApiText preds d k txt)).bind
      (fun r => (alookup k r.turns).bind (fun e => e.api)) = some txt := by
  unfold recordApiText setTurnEntry
  rw [alookup_dictInsert_self]
  simp only [Option.some_bind]
  rw [alookup_dictInsert_self]
  simp only [Option.some_bind]

theorem apiApply_skip {env : Env} {X : LoopState} {t : Turn}
    (hnone : (if pyStrip t.prediction = "yes" then
        (match X.activeApi with
         | none => none
         | some a => (alookup a X.dialogueState).map (fun cm => (a, cm)))
      else none : Option (String × CMap)) = none) :
    apiApply env X t = .ok { X with
      newKnowledgeText := "null"
      bitodPreds := recordApiText X.bitodPreds t.dialId (toString t.turnId) "null" } := by
  unfold apiApply
  rw [hnone]

theorem apiSkip_of_not_yes {X : LoopState} {t : Turn} (h : pyStrip t.prediction ≠ "yes") :
    (if pyStrip t.prediction = "yes" then
        (match X.activeApi with
         | none => none
         | some a => (alookup a X.dialogueState).map (fun cm => (a, cm)))
      else none : Option (String × CMap)) = none := by
  rw [if_neg h]

theorem apiSkip_of_no_active {X : LoopState} {t : Turn} (h : X.activeApi = none) :
    (if pyStrip t.prediction = "yes" then
        (match X.activeApi with
         | none => none
         | some a => (alookup a X.dialogueState).map (fun cm => (a, cm)))
      else none : Option (String × CMap)) = none := by
  by_cases hy : pyStrip t.prediction = "yes"
  · rw [if_pos hy, h]
  · rw [if_neg hy]

theorem processTurn_api_step (env : Env) (opo : Bool) (st : LoopState) (t : Turn)
    (htgt : t.trainTarget = "api") {it : String}
    (hit : replaceSpan stateMarker t.context
      (env.state2span (applyDialogueReset st t.dialId).dialogueState) = some it) :
    processTurn env opo st t = apiApply env
      (appendOutputs opo (applyDialogueReset st t.dialId) t
        (env.state2span (applyDialogueReset st t.dialId).dialogueState)) t := by
  unfold processTurn processTurnBody computeInput
  rw [htgt]
  simp only [if_neg (show ¬(("api" : String) = "dst") by decide), if_pos rfl]
  rw [hit]
  rfl

/-- C2 (corrected): an api turn whose stripped model output is no makes
no external call, but the knowledge span does not keep its prior value:
line 285 resets it to null before the yes/no dispatch, so null is what
the turn's report api entry records and what the following response
turn substitutes.  The dialogue state, ActiveAPI and msg are untouched,
and the result does not depend on the external API outcome at all. -/
theorem claim_C2_api_no_resets_knowledge_amended (env : Env) (opo : Bool) (st : LoopState)
    (t : Turn) (hdial : t.dialId = st.curDialId) (htgt : t.trainTarget = "api")
    (hno : pyStrip t.prediction = "no") {it : String}
    (hit : replaceSpan stateMarker t.context (env.state2span st.dialogueState) = some it) :
    processTurn env opo st t
      = .ok { appendOutputs opo st t (env.state2span st.dialogueState) with
          newKnowledgeText := "null"
          bitodPreds := recordApiText st.bitodPreds t.dialId (toString t.turnId) "null" }
    ∧ reportApiAt (processTurn env opo st t) t.dialId (toString t.turnId) = some "null"
    ∧ (∀ o : ApiOutcome, processTurn env opo st { t with apiOutcome := o }
        = processTurn env opo st t) := by
  have hres : applyDialogueReset st t.dialId = st := by
    unfold applyDialogueReset
    rw [if_pos hdial.symm]
  have hmain : ∀ o : ApiOutcome, processTurn env opo st { t with apiOutcome := o }
      = .ok { appendOutputs opo st { t with apiOutcome := o }
            (env.state2span st.dialogueState) with
          newKnowledgeText := "null"
          bitodPreds := recordApiText st.bitodPreds t.dialId (toString t.turnId) "null" } := by
    intro o
    have hstep := @processTurn_api_step env opo st { t with apiOutcome := o } htgt
      it (by rw [hres]; exact hit)
    rw [hres] at hstep
    rw [hstep, apiApply_skip (apiSkip_of_not_yes (by rw [hno]; decide))]
    rfl
  have hmaint : processTurn env opo st t
      = .ok { appendOutputs opo st t (env.state2span st.dialogueState) with
          newKnowledgeText := "null"
          bitodPreds := recordApiText st.bitodPreds t.dialId (toString t.turnId) "null" } :=
    hmain t.apiOutcome
  refine ⟨hmaint, ?_, fun o => (hmain o).trans hmaint.symm⟩
  rw [hmaint]
  unfold reportApiAt
  exact report_bind_recordApiText _ _ _ _

/-- Witness for the amended C2 on a concrete mid-dialogue state whose
prior knowledge span is K: the api entry becomes null, not K. -/
theorem claim_C2_witness :
    processTurn envTest false stMid tA3apiNo
      = .ok { appendOutputs false stMid tA3apiNo (envTest.state2span stMid.dialogueState) with
          newKnowledgeText := "null"
          bitodPreds := recordApiText stMid.bitodPreds "A" "3" "null" }
    ∧ reportApiAt (processTurn envTest false stMid tA3apiNo) "A" "3" = some "null" := by
  have h := @claim_C2_api_no_resets_knowledge_amended envTest false stMid tA3apiNo rfl rfl
    (by decide) "<state> S" rfl
  exact ⟨h.1, h.2.1⟩

/-- C2 (counterexample): after a successful yes call sets the knowledge
span to K, a following no turn records null - not the retained prior
value K that the claim asserts. -/
theorem claim_C2_counterexample :
    reportApiAt (runLoop envTest false initialLoopState [tA1dst, tA2apiOk, tA3apiNo]) "A" "3"
      = some "null"
    ∧ (runLoop envTest false initialLoopState [tA1dst, tA2apiOk]).toOption.map
        (fun st => st.newKnowledgeText) = some "K"
    ∧ ("null" : String) ≠ "K" :=
  ⟨rfl, rfl, by decide⟩

/-- C4 (corrected): an api turn processed while ActiveAPI is unset -
in particular one occurring before any dst turn of its dialogue - is
silently ignored, not surfaced as an error: the None-membership test of
line 292 fails, the call is skipped, processing returns normally and
the turn's report api entry records null. -/
theorem claim_C4_api_before_dst_amended (env : Env) (opo : Bool) (st : LoopState) (t : Turn)
    (htgt : t.trainTarget = "api")
    (hact : (applyDialogueReset st t.dialId).activeApi = none) {it : String}
    (hit : replaceSpan stateMarker t.context
      (env.state2span (applyDialogueReset st t.dialId).dialogueState) = some it) :
    processTurn env opo st t
      = .ok { appendOutputs opo (applyDialogueReset st t.dialId) t
            (env.state2span (applyDialogueReset st t.dialId).dialogueState) with
          newKnowledgeText := "null"
          bitodPreds := recordApiText (applyDialogueReset st t.dialId).bitodPreds
            t.dialId (toString t.turnId) "null" }
    ∧ reportApiAt (processTurn env opo st t) t.dialId (toString t.turnId) = some "null" := by
  have hstep := processTurn_api_step env opo st t htgt hit
  have hmaint : processTurn env opo st t
      = .ok { appendOutputs opo (applyDialogueReset st t.dialId) t
            (env.state2span (applyDialogueReset st t.dialId).dialogueState) with
          newKnowledgeText := "null"
          bitodPreds := recordApiText (applyDialogueReset st t.dialId).bitodPreds
            t.dialId (toString t.turnId) "null" } := by
    rw [hstep, apiApply_skip (@apiSkip_of_no_active
      (appendOutputs opo (applyDialogueReset st t.dialId) t
        (env.state2span (applyDialogueReset st t.dialId).dialogueState)) t hact)]
    rfl
  refine ⟨hmaint, ?_⟩
  rw [hmaint]
  unfold reportApiAt
  exact report_bind_recordApiText _ _ _ _

/-- Witness for the amended C4: an api turn opening a fresh dialogue. -/
theorem claim_C4_witness :
    processTurn envTest false initialLoopState tC1apiFirst
      = .ok { appendOutputs false (applyDialogueReset initialLoopState "C") tC1apiFirst
            (envTest.state2span []) with
          newKnowledgeText := "null"
          bitodPreds := recordApiText (applyDialogueReset initialLoopState "C").bitodPreds
            "C" "1" "null" }
    ∧ reportApiAt (processTurn envTest false initialLoopState tC1apiFirst) "C" "1"
        = some "null" := by
  have h := @claim_C4_api_before_dst_amended envTest false initialLoopState tC1apiFirst rfl rfl
    "<state> S" rfl
  exact ⟨h.1, h.2⟩

/-- C4 (counterexample): the run with an api-before-dst turn finishes
with ok - no error is signalled - and records null, against the claim
that the condition is surfaced as an error. -/
theorem claim_C4_counterexample :
    (runLoop envTest false initialLoopState [tC1apiFirst]).isOk = true
    ∧ reportApiAt (runLoop envTest false initialLoopState [tC1apiFirst]) "C" "1"
        = some "null" :=
  ⟨rfl, rfl⟩

/-- C1 (code bug): the first api call of a run that raises is not
recovered.  The except block of lines 303-309 interpolates msg[2] into
its log line, but msg has never been bound at that point, so the
handler itself raises UnboundLocalError and the exception propagates
out of generate_with_seq2seq_model_for_dialogue - no downgraded
zero-result, no per-dialogue report.  The claim (and the try/except
plus the msg = [0,0,0] downgrade) clearly intend recovery; the read of
the unbound msg is the slip. -/
theorem claim_C1_first_failing_call_propagates :
    runLoop envTest false initialLoopState [tA1dst, tA2apiFail] = .error .unboundLocalMsg
    ∧ tA2apiFail.apiOutcome = .error ()
    ∧ pyStrip tA2apiFail.prediction = "yes"
    ∧ alookup "hotel" [("hotel", [("price", "cheap")])] ≠ none :=
  ⟨rfl, rfl, rfl, by decide⟩

theorem dictInsert_keys_of_lookup_some {β : Type} {k : String} {l : List (String × β)} {e : β}
    (h : alookup k l = some e) (v : β) :
    (dictInsert k v l).map Prod.fst = l.map Prod.fst := by
  induction l with
  | nil => simp [alookup] at h
  | cons p t ih =>
    obtain ⟨k₀, v₀⟩ := p
    by_cases h₀ : k₀ = k
    · subst h₀; simp [dictInsert]
    · simp only [alookup, if_neg h₀] at h
      simp [dictInsert, if_neg h₀, ih h]

theorem alookup_ne_none_of_mem_keys {β : Type} {k : String} {l : List (String × β)}
    (h : k ∈ l.map Prod.fst) : alookup k l ≠ none := by
  induction l with
  | nil => simp at h
  | cons p t ih =>
    obtain ⟨k₀, v₀⟩ := p
    simp only [List.map_cons, List.mem_cons] at h
    by_cases h₀ : k₀ = k
    · simp [alookup, h₀]
    · rcases h with h | h
      · exact absurd h.symm h₀
      · simp only [alookup, if_neg h₀]
        exact ih h

theorem mem_dictInsert_nodup {β : Type} {l : List (String × β)}
    (hnd : (l.map Prod.fst).Nodup) (k : String) (v : β) (p : String × β) :
    p ∈ dictInsert k v l ↔ p = (k, v) ∨ (p ∈ l ∧ p.1 ≠ k) := by
  induction l with
  | nil => simp [dictInsert]
  | cons q t ih =>
    obtain ⟨k₀, v₀⟩ := q
    by_cases h₀ : k₀ = k
    · subst h₀
      simp only [dictInsert, if_pos rfl]
      constructor
      · intro hm
        rcases List.mem_cons.1 hm with hm | hm
        · exact Or.inl hm
        · refine Or.inr ⟨List.mem_cons_of_mem _ hm, fun hpk => ?_⟩
          apply (List.nodup_cons.1 hnd).1
          rw [← hpk]
          exact List.mem_map.2 ⟨p, hm, rfl⟩
      · intro hm
        rcases hm with hm | ⟨hm, hpk⟩
        · exact hm ▸ List.mem_cons_self _ _
        · rcases List.mem_cons.1 hm with hm | hm
          · exact absurd (by rw [hm]) hpk
          · exact List.mem_cons_of_mem _ hm
    · simp only [dictInsert, if_neg h₀]
      constructor
      · intro hm
        rcases List.mem_cons.1 hm with hm | hm
        · exact Or.inr ⟨hm ▸ List.mem_cons_self _ _, by rw [hm]; exact h₀⟩
        · rcases (ih (List.nodup_cons.1 hnd).2).1 hm with hm | ⟨hm1, hm2⟩
          · exact Or.inl hm
          · exact Or.inr ⟨List.mem_cons_of_mem _ hm1, hm2⟩
      · intro hm
        rcases hm with hm | ⟨hm, hpk⟩
        · exact List.mem_cons_of_mem _ ((ih (List.nodup_cons.1 hnd).2).2 (Or.inl hm))
        · rcases List.mem_cons.1 hm with hm | hm
          · exact hm ▸ List.mem_cons_self _ _
          · exact List.mem_cons_of_mem _ ((ih (List.nodup_cons.1 hnd).2).2 (Or.inr ⟨hm, hpk⟩))

theorem alookup_recordState {env : Env} {preds : List (String × DialReport)} {d key : String}
    {ds : DState} {r : DialReport} (hr : alookup d preds = some r) :
    alookup d (recordState env preds d key ds)
      = some { r with
          turns := setTurnEntry r.turns key (fun e => { e with state := some (renameState env ds) }) } := by
  unfold recordState
  rw [hr]
  exact alookup_dictInsert_self _ _ _

theorem alookup_recordApiText {preds : List (String × DialReport)} {d key txt : String}
    {r : DialReport} (hr : alookup d preds = some r) :
    alookup d (recordApiText preds d key txt)
      = some { r with
          turns := setTurnEntry r.turns key (fun e => { e with api := some txt }) } := by
  unfold recordApiText
  rw [hr]
  exact alookup_dictInsert_self _ _ _

theorem alookup_recordConstraints {env : Env} {preds : List (String × DialReport)}
    {d apiName : String} {c : CMap} {r : DialReport} (hr : alookup d preds = some r) :
    alookup d (recordConstraints env preds d apiName c)
      = some { r with apis := dictInsert (env.apiNameMap apiName) c r.apis } := by
  unfold recordConstraints
  rw [hr]
  exact alookup_dictInsert_self _ _ _

theorem alookup_recordResponse {preds : List (String × DialReport)} {d key : String}
    {resp : List String} {r : DialReport} (hr : alookup d preds = some r) :
    alookup d (recordResponse preds d key resp)
      = some { r with
          turns := setTurnEntry r.turns key (fun e => { e with response := some resp }) } := by
  unfold recordResponse
  rw [hr]
  exact alookup_dictInsert_self _ _ _

theorem applyDialogueReset_cur (st : LoopState) (d : String) :
    (applyDialogueReset st d).curDialId = d := by
  unfold applyDialogueReset
  split
  · exact ‹st.curDialId = d›
  · rfl

theorem applyDialogueReset_idem (st : LoopState) (d : String) :
    applyDialogueReset (applyDialogueReset st d) d = applyDialogueReset st d := by
  rw [applyDialogueReset, applyDialogueReset_cur]
  simp

theorem applyDialogueReset_bitod_ne {st : LoopState} {dialId d : String} (hne : dialId ≠ d) :
    alookup d (applyDialogueReset st dialId).bitodPreds = alookup d st.bitodPreds := by
  unfold applyDialogueReset
  split
  · rfl
  · exact alookup_dictInsert_ne _ _ (Ne.symm hne)

theorem dstateFold_append (env : Env) (S : DState) (l1 l2 : List Turn) :
    dstateFold env S (l1 ++ l2) = dstateFold env (dstateFold env S l1) l2 :=
  List.foldl_append _ _ _ _

theorem dstateOf_append_dst {env : Env} {t : Turn} (l : List Turn)
    (h : t.trainTarget = "dst") :
    dstateOf env (l ++ [t]) = mergeState (dstateOf env l) (deltaOf env t) := by
  unfold dstateOf
  rw [dstateFold_append]
  simp [dstateFold, h]

theorem dstateOf_append_nondst {env : Env} {t : Turn} (l : List Turn)
    (h : ¬ t.trainTarget = "dst") :
    dstateOf env (l ++ [t]) = dstateOf env l := by
  unfold dstateOf
  rw [dstateFold_append]
  simp [dstateFold, h]

theorem mem_of_alookup {β : Type} {k : String} {l : List (String × β)} {v : β}
    (h : alookup k l = some v) : (k, v) ∈ l := by
  induction l with
  | nil => simp [alookup] at h
  | cons p t ih =>
    obtain ⟨k₀, v₀⟩ := p
    by_cases h₀ : k₀ = k
    · subst h₀
      simp [alookup] at h
      subst h
      exact List.mem_cons_self _ _
    · simp only [alookup, if_neg h₀] at h
      exact List.mem_cons_of_mem _ (ih h)

theorem alookup_recordState_ne {env : Env} {preds : List (String × DialReport)}
    {dialId d key : String} {ds : DState} (hne : dialId ≠ d) :
    alookup d (recordState env preds dialId key ds) = alookup d preds := by
  unfold recordState
  exact alookup_dictInsert_ne _ _ (Ne.symm hne)

theorem alookup_recordApiText_ne {preds : List (String × DialReport)}
    {dialId d key txt : String} (hne : dialId ≠ d) :
    alookup d (recordApiText preds dialId key txt) = alookup d preds := by
  unfold recordApiText
  exact alookup_dictInsert_ne _ _ (Ne.symm hne)

theorem alookup_recordConstraints_ne {env : Env} {preds : List (String × DialReport)}
    {dialId d apiName : String} {c : CMap} (hne : dialId ≠ d) :
    alookup d (recordConstraints env preds dialId apiName c) = alookup d preds := by
  unfold recordConstraints
  exact alookup_dictInsert_ne _ _ (Ne.symm hne)

theorem alookup_recordResponse_ne {preds : List (String × DialReport)}
    {dialId d key : String} {resp : List String} (hne : dialId ≠ d) :
    alookup d (recordResponse preds dialId key resp) = alookup d preds := by
  unfold recordResponse
  exact alookup_dictInsert_ne _ _ (Ne.symm hne)

theorem setTurnEntry_keys_ok {turns : List (String × TurnEntry)} {processed : List Turn}
    {t : Turn} (f : TurnEntry → TurnEntry)
    (hks : TurnKeysOk turns processed)
    (hle : ∀ t0 ∈ processed, t0.turnId ≤ t.turnId) :
    TurnKeysOk (setTurnEntry turns (toString t.turnId) f) (processed ++ [t]) := by
  obtain ⟨hnd, ks, hmap, hchain, hmem⟩ := hks
  unfold setTurnEntry
  cases hl : alookup (toString t.turnId) turns with
  | some e =>
    have hkeys := dictInsert_keys_of_lookup_some hl (f ((some e).getD {}))
    refine ⟨?_, ks, ?_, hchain, ?_⟩
    · rw [hkeys]; exact hnd
    · rw [hkeys, hmap]
    · intro j hj
      obtain ⟨t0, ht0, he⟩ := hmem j hj
      exact ⟨t0, List.mem_append.2 (Or.inl ht0), he⟩
  | none =>
    have happ := dictInsert_of_alookup_none
      (f ((none : Option TurnEntry).getD {})) hl
    rw [happ]
    have hnotmem : toString t.turnId ∉ turns.map Prod.fst :=
      fun hmem' => (alookup_ne_none_of_mem_keys hmem') hl
    refine ⟨?_, ks ++ [t.turnId], ?_, ?_, ?_⟩
    · rw [List.map_append]
      exact List.nodup_append.2 ⟨hnd, by simp, by
        intro a ha hb
        simp at hb
        rw [hb] at ha
        exact hnotmem ha⟩
    · rw [List.map_append, hmap]
      simp
    · rw [List.chain'_iff_pairwise] at hchain ⊢
      rw [List.pairwise_append]
      refine ⟨hchain, by simp, ?_⟩
      intro a ha b hb
      simp only [List.mem_singleton] at hb
      subst hb
      obtain ⟨t0, ht0, he⟩ := hmem a ha
      have hale : a ≤ t.turnId := by rw [← he]; exact hle t0 ht0
      have hane : a ≠ t.turnId := by
        intro hkk
        apply hnotmem
        rw [← hkk, hmap]
        exact List.mem_map.2 ⟨a, ha, rfl⟩
      omega
    · intro j hj
      rcases List.mem_append.1 hj with hj | hj
      · obtain ⟨t0, ht0, he⟩ := hmem j hj
        exact ⟨t0, List.mem_append.2 (Or.inl ht0), he⟩
      · simp only [List.mem_singleton] at hj
        subst hj
        exact ⟨t, List.mem_append.2 (Or.inr (by simp)), rfl⟩

theorem setTurnEntry_states_ok_nonstate {env : Env} {turns : List (String × TurnEntry)}
    {processed : List Turn} {t : Turn} (f : TurnEntry → TurnEntry)
    (hf : ∀ e, (f e).state = e.state)
    (hnd : (turns.map Prod.fst).Nodup)
    (hnondst : ¬ t.trainTarget = "dst")
    (hst : TurnStatesOk env turns processed) :
    TurnStatesOk env (setTurnEntry turns (toString t.turnId) f) (processed ++ [t]) := by
  have hfilter : ∀ k : Int,
      dstateOf env ((processed ++ [t]).filter (fun t' => t'.turnId ≤ k))
        = dstateOf env (processed.filter (fun t' => t'.turnId ≤ k)) := by
    intro k
    rw [List.filter_append]
    by_cases hk : t.turnId ≤ k
    · rw [show List.filter (fun t' => decide (t'.turnId ≤ k)) [t] = [t] from by simp [hk]]
      exact dstateOf_append_nondst _ hnondst
    · rw [show List.filter (fun t' => decide (t'.turnId ≤ k)) [t] = [] from by simp [hk]]
      simp
  intro p hp s hs
  unfold setTurnEntry at hp
  rw [mem_dictInsert_nodup hnd] at hp
  rcases hp with hp | ⟨hp, _⟩
  · subst hp
    rw [hf] at hs
    cases hl : alookup (toString t.turnId) turns with
    | none =>
      rw [hl] at hs
      simp at hs
    | some e0 =>
      rw [hl] at hs
      simp only [Option.getD_some] at hs
      obtain ⟨k, hk1, hk2, hk3⟩ := hst (toString t.turnId, e0) (mem_of_alookup hl) s hs
      refine ⟨k, hk1, ?_, ?_⟩
      · obtain ⟨t0, ht0, he⟩ := hk2
        exact ⟨t0, List.mem_append.2 (Or.inl ht0), he⟩
      · rw [hfilter k]
        exact hk3
  · obtain ⟨k, hk1, hk2, hk3⟩ := hst p hp s hs
    refine ⟨k, hk1, ?_, ?_⟩
    · obtain ⟨t0, ht0, he⟩ := hk2
      exact ⟨t0, List.mem_append.2 (Or.inl ht0), he⟩
    · rw [hfilter k]
      exact hk3

theorem setTurnEntry_states_ok_dst {env : Env} {turns : List (String × TurnEntry)}
    {processed : List Turn} {t : Turn}
    (hnd : (turns.map Prod.fst).Nodup)
    (hdst : t.trainTarget = "dst")
    (hle : ∀ t0 ∈ processed, t0.turnId ≤ t.turnId)
    (hst : TurnStatesOk env turns processed) :
    TurnStatesOk env
      (setTurnEntry turns (toString t.turnId)
        (fun e => { e with state := some (renameState env (dstateOf env (processed ++ [t]))) }))
      (processed ++ [t]) := by
  intro p hp s hs
  unfold setTurnEntry at hp
  rw [mem_dictInsert_nodup hnd] at hp
  rcases hp with hp | ⟨hp, hpne⟩
  · subst hp
    have hs' : renameState env (dstateOf env (processed ++ [t])) = s := by
      injection hs
    refine ⟨t.turnId, rfl, ⟨t, List.mem_append.2 (Or.inr (by simp)), rfl⟩, ?_⟩
    rw [← hs']
    have hfull : (processed ++ [t]).filter (fun t' => t'.turnId ≤ t.turnId)
        = processed ++ [t] := by
      rw [List.filter_eq_self]
      intro a ha
      rcases List.mem_append.1 ha with ha | ha
      · simp [hle a ha]
      · simp only [List.mem_singleton] at ha
        subst ha
        simp
    rw [hfull]
  · obtain ⟨k, hk1, hk2, hk3⟩ := hst p hp s hs
    obtain ⟨t0, ht0, he⟩ := hk2
    have hkle : k ≤ t.turnId := by rw [← he]; exact hle t0 ht0
    have hkne : k ≠ t.turnId := by
      intro hkk
      apply hpne
      rw [hk1, hkk]
    refine ⟨k, hk1, ⟨t0, List.mem_append.2 (Or.inl ht0), he⟩, ?_⟩
    rw [List.filter_append]
    rw [show List.filter (fun t' => decide (t'.turnId ≤ k)) [t] = [] from by
      simp
      omega]
    simp only [List.append_nil]
    exact hk3

theorem apiApply_bitod {env : Env} {X : LoopState} {t : Turn} {st' : LoopState}
    {r : DialReport} (hp : apiApply env X t = .ok st')
    (hr : alookup t.dialId X.bitodPreds = some r) :
    ∃ apis' nkt, alookup t.dialId st'.bitodPreds
      = some ⟨setTurnEntry r.turns (toString t.turnId)
          (fun e => { e with api := some nkt }), apis'⟩ := by
  unfold apiApply at hp
  split at hp
  · rename_i apiName cm heq
    cases hcall : apiYesCall env X t apiName with
    | error e =>
      rw [hcall] at hp
      cases hp
    | ok q =>
      obtain ⟨nkt, m⟩ := q
      rw [hcall] at hp
      cases hp
      have h1 : alookup t.dialId
          (recordConstraints env X.bitodPreds t.dialId apiName (env.state2constraints cm))
          = some { r with apis := dictInsert (env.apiNameMap apiName) (env.state2constraints cm) r.apis } :=
        alookup_recordConstraints hr
      have h2 : alookup t.dialId
          (recordApiText
            (recordConstraints env X.bitodPreds t.dialId apiName (env.state2constraints cm))
            t.dialId (toString t.turnId) nkt)
          = some ⟨setTurnEntry r.turns (toString t.turnId) (fun e => { e with api := some nkt }),
              dictInsert (env.apiNameMap apiName) (env.state2constraints cm) r.apis⟩ :=
        alookup_recordApiText h1
      exact ⟨_, nkt, h2⟩
  · cases hp
    exact ⟨r.apis, "null", alookup_recordApiText hr⟩

theorem apiApply_bitod_other {env : Env} {X : LoopState} {t : Turn} {st' : LoopState}
    {d : String} (hne : t.dialId ≠ d) (hp : apiApply env X t = .ok st') :
    alookup d st'.bitodPreds = alookup d X.bitodPreds := by
  unfold apiApply at hp
  repeat split at hp
  all_goals cases hp
  · show alookup d (recordApiText (recordConstraints _ _ _ _ _) _ _ _) = _
    rw [alookup_recordApiText_ne hne, alookup_recordConstraints_ne hne]
  · exact alookup_recordApiText_ne hne

theorem blockInv_step {env : Env} {opo : Bool} {d : String} {processed : List Turn}
    {st st' : LoopState} {t : Turn}
    (hinv : BlockInv env d processed st) (htd : t.dialId = d)
    (hle : ∀ t0 ∈ processed, t0.turnId ≤ t.turnId)
    (hp : processTurn env opo st t = .ok st') :
    BlockInv env d (processed ++ [t]) st' := by
  subst htd
  obtain ⟨hcur, hds, r, hr, hks, hst⟩ := hinv
  have hres : applyDialogueReset st t.dialId = st := by
    unfold applyDialogueReset
    rw [if_pos hcur]
  unfold processTurn at hp
  rw [hres] at hp
  unfold processTurnBody at hp
  cases hci : computeInput env st t with
  | error e =>
    rw [hci] at hp
    cases hp
  | ok pr =>
    obtain ⟨it, nst⟩ := pr
    rw [hci] at hp
    dsimp only at hp
    by_cases h1 : t.trainTarget = "dst"
    · rw [if_pos h1] at hp
      cases hp
      refine ⟨hcur, ?_, ?_⟩
      · show mergeState st.dialogueState (deltaOf env t) = _
        rw [hds, dstateOf_append_dst _ h1]
      · have hds' : mergeState st.dialogueState (deltaOf env t)
            = dstateOf env (processed ++ [t]) := by
          rw [hds, dstateOf_append_dst _ h1]
        have hrec : alookup t.dialId
            (recordState env st.bitodPreds t.dialId (toString t.turnId)
              (mergeState st.dialogueState (deltaOf env t)))
            = some { r with
                turns := setTurnEntry r.turns (toString t.turnId)
                  (fun e => { e with state := some (renameState env
                    (mergeState st.dialogueState (deltaOf env t))) }) } :=
          alookup_recordState hr
        nth_rewrite 2 [hds'] at hrec
        refine ⟨_, hrec, ?_, ?_⟩
        · exact setTurnEntry_keys_ok
            (fun e => { e with state := some (renameState env (dstateOf env (processed ++ [t]))) })
            hks hle
        · exact setTurnEntry_states_ok_dst hks.1 h1 hle hst
    · by_cases h2 : t.trainTarget = "api"
      · rw [if_neg h1, if_pos h2] at hp
        obtain ⟨_, _, _, _, hcur', hds', _, _⟩ := apiApply_frame hp
        refine ⟨?_, ?_, ?_⟩
        · rw [hcur']
          exact hcur
        · rw [hds', dstateOf_append_nondst _ h1]
          exact hds
        · obtain ⟨apis', nkt, hrec⟩ := apiApply_bitod hp hr
          refine ⟨_, hrec, ?_, ?_⟩
          · exact setTurnEntry_keys_ok (fun e => { e with api := some nkt }) hks hle
          · exact setTurnEntry_states_ok_nonstate
              (fun e => { e with api := some nkt }) (fun e => rfl) hks.1 h1 hst
      · by_cases h3 : t.trainTarget = "response"
        · rw [if_neg h1, if_neg h2, if_pos h3] at hp
          cases hp
          refine ⟨hcur, ?_, ?_⟩
          · show st.dialogueState = _
            rw [dstateOf_append_nondst _ h1]
            exact hds
          · have hrec : alookup t.dialId
                (recordResponse st.bitodPreds t.dialId (toString t.turnId) [t.prediction])
                = some { r with
                    turns := setTurnEntry r.turns (toString t.turnId)
                      (fun e => { e with response := some [t.prediction] }) } :=
              alookup_recordResponse hr
            refine ⟨_, hrec, ?_, ?_⟩
            · exact setTurnEntry_keys_ok
                (fun e => { e with response := some [t.prediction] }) hks hle
            · exact setTurnEntry_states_ok_nonstate
                (fun e => { e with response := some [t.prediction] }) (fun e => rfl) hks.1 h1 hst
        · rw [if_neg h1, if_neg h2, if_neg h3] at hp
          cases hp

theorem blockInv_run {env : Env} {opo : Bool} {d : String} {processed : List Turn}
    {st stF : LoopState} {block : List Turn}
    (hinv : BlockInv env d processed st)
    (hall : ∀ t ∈ block, t.dialId = d)
    (hmono : ∀ t0 ∈ processed, ∀ t1 ∈ block, t0.turnId ≤ t1.turnId)
    (hchain : block.Pairwise (fun a b => a.turnId ≤ b.turnId))
    (hrun : runLoop env opo st block = .ok stF) :
    BlockInv env d (processed ++ block) stF := by
  induction block generalizing processed st with
  | nil =>
    cases hrun
    simpa using hinv
  | cons t ts ih =>
    rw [runLoop] at hrun
    cases hpt : processTurn env opo st t with
    | error e =>
      rw [hpt] at hrun
      cases hrun
    | ok st1 =>
      rw [hpt] at hrun
      have hinv1 := blockInv_step hinv (hall t (by simp))
        (fun t0 h0 => hmono t0 h0 t (by simp)) hpt
      have hmono' : ∀ t0 ∈ processed ++ [t], ∀ t1 ∈ ts, t0.turnId ≤ t1.turnId := by
        intro t0 h0 t1 h1
        rcases List.mem_append.1 h0 with h0 | h0
        · exact hmono t0 h0 t1 (List.mem_cons_of_mem _ h1)
        · simp only [List.mem_singleton] at h0
          subst h0
          exact (List.pairwise_cons.1 hchain).1 t1 h1
      have hres := ih hinv1 (fun t' h' => hall t' (List.mem_cons_of_mem _ h')) hmono'
        (List.pairwise_cons.1 hchain).2 hrun
      rw [List.append_assoc, List.singleton_append] at hres
      exact hres

theorem applyDialogueReset_of_ne {st : LoopState} {dialId : String}
    (h : st.curDialId ≠ dialId) :
    applyDialogueReset st dialId
      = { st with
          curDialId := dialId
          dialogueState := []
          newStateText := "null"
          newKnowledgeText := "null"
          activeApi := none
          bitodPreds := dictInsert dialId emptyDialReport st.bitodPreds } := by
  unfold applyDialogueReset
  rw [if_neg h]

theorem processTurn_reset_first (env : Env) (opo : Bool) (st : LoopState) (t : Turn) :
    processTurn env opo (applyDialogueReset st t.dialId) t = processTurn env opo st t := by
  unfold processTurn
  rw [applyDialogueReset_idem]

theorem processTurn_cur {env : Env} {opo : Bool} {st : LoopState} {t : Turn}
    {st' : LoopState} (hp : processTurn env opo st t = .ok st') :
    st'.curDialId = t.dialId := by
  unfold processTurn processTurnBody at hp
  cases hci : computeInput env (applyDialogueReset st t.dialId) t with
  | error e => rw [hci] at hp; cases hp
  | ok pr =>
    obtain ⟨it, nst⟩ := pr
    rw [hci] at hp
    dsimp only at hp
    by_cases h1 : t.trainTarget = "dst"
    · rw [if_pos h1] at hp
      cases hp
      exact applyDialogueReset_cur st t.dialId
    · by_cases h2 : t.trainTarget = "api"
      · rw [if_neg h1, if_pos h2] at hp
        obtain ⟨_, _, _, _, hcur', _, _, _⟩ := apiApply_frame hp
        rw [hcur']
        exact applyDialogueReset_cur st t.dialId
      · by_cases h3 : t.trainTarget = "response"
        · rw [if_neg h1, if_neg h2, if_pos h3] at hp
          cases hp
          exact applyDialogueReset_cur st t.dialId
        · rw [if_neg h1, if_neg h2, if_neg h3] at hp
          cases hp

theorem processTurn_bitod_other {env : Env} {opo : Bool} {st : LoopState} {t : Turn}
    {st' : LoopState} {d : String} (hne : t.dialId ≠ d)
    (hp : processTurn env opo st t = .ok st') :
    alookup d st'.bitodPreds = alookup d st.bitodPreds := by
  unfold processTurn processTurnBody at hp
  cases hci : computeInput env (applyDialogueReset st t.dialId) t with
  | error e => rw [hci] at hp; cases hp
  | ok pr =>
    obtain ⟨it, nst⟩ := pr
    rw [hci] at hp
    dsimp only at hp
    by_cases h1 : t.trainTarget = "dst"
    · rw [if_pos h1] at hp
      cases hp
      simp only [dstApply, appendOutputs]
      rw [alookup_recordState_ne hne]
      exact applyDialogueReset_bitod_ne hne
    · by_cases h2 : t.trainTarget = "api"
      · rw [if_neg h1, if_pos h2] at hp
        rw [apiApply_bitod_other hne hp]
        simp only [appendOutputs]
        exact applyDialogueReset_bitod_ne hne
      · by_cases h3 : t.trainTarget = "response"
        · rw [if_neg h1, if_neg h2, if_pos h3] at hp
          cases hp
          simp only [responseApply, appendOutputs]
          rw [alookup_recordResponse_ne hne]
          exact applyDialogueReset_bitod_ne hne
        · rw [if_neg h1, if_neg h2, if_neg h3] at hp
          cases hp

theorem runLoop_append {env : Env} {opo : Bool} {st stF : LoopState} {l1 l2 : List Turn}
    (h : runLoop env opo st (l1 ++ l2) = .ok stF) :
    ∃ st1, runLoop env opo st l1 = .ok st1 ∧ runLoop env opo st1 l2 = .ok stF := by
  induction l1 generalizing st with
  | nil => exact ⟨st, rfl, h⟩
  | cons t ts ih =>
    rw [List.cons_append, runLoop] at h
    cases hp : processTurn env opo st t with
    | error e => rw [hp] at h; cases h
    | ok st1 =>
      rw [hp] at h
      obtain ⟨st2, h1, h2⟩ := ih h
      refine ⟨st2, ?_, h2⟩
      rw [runLoop, hp]
      exact h1

theorem runLoop_cur_mem {env : Env} {opo : Bool} {st stF : LoopState} {ts : List Turn}
    (h : runLoop env opo st ts = .ok stF) :
    stF.curDialId = st.curDialId ∨ ∃ t ∈ ts, stF.curDialId = t.dialId := by
  induction ts generalizing st with
  | nil =>
    cases h
    exact Or.inl rfl
  | cons t ts ih =>
    rw [runLoop] at h
    cases hp : processTurn env opo st t with
    | error e => rw [hp] at h; cases h
    | ok st1 =>
      rw [hp] at h
      rcases ih h with h1 | ⟨t', ht', he⟩
      · exact Or.inr ⟨t, by simp, by rw [h1, processTurn_cur hp]⟩
      · exact Or.inr ⟨t', List.mem_cons_of_mem _ ht', he⟩

theorem runLoop_bitod_other {env : Env} {opo : Bool} {d : String} {st stF : LoopState}
    {ts : List Turn} (hne : ∀ t ∈ ts, t.dialId ≠ d)
    (h : runLoop env opo st ts = .ok stF) :
    alookup d stF.bitodPreds = alookup d st.bitodPreds := by
  induction ts generalizing st with
  | nil =>
    cases h
    rfl
  | cons t ts ih =>
    rw [runLoop] at h
    cases hp : processTurn env opo st t with
    | error e => rw [hp] at h; cases h
    | ok st1 =>
      rw [hp] at h
      rw [ih (fun t' h' => hne t' (List.mem_cons_of_mem _ h')) h]
      exact processTurn_bitod_other (hne t (by simp)) hp

/-- C6 (amended): when the turns of dialogue d form one contiguous
block of the stream (no other dialogue interleaved) with non-decreasing
turn ids, d's final report entry lists its turn keys in strictly
increasing order, and the state recorded at a key k is the relabeled
left-to-right merge of exactly the dst deltas of d's turns with id at
most k - never a delta of another dialogue.  Without contiguity the
original claim fails: a revisited dialogue id resets the state and
overwrites the report entry (see the counterexample). -/
theorem claim_C6_report_order_and_state_amended (env : Env) (opo : Bool)
    (before block after : List Turn) (d : String) (stF : LoopState)
    (hd : d ≠ "")
    (hblock : block ≠ [])
    (halld : ∀ t ∈ block, t.dialId = d)
    (hbefore : ∀ t ∈ before, t.dialId ≠ d)
    (hafter : ∀ t ∈ after, t.dialId ≠ d)
    (hchain : block.Pairwise (fun a b => a.turnId ≤ b.turnId))
    (hrun : runLoop env opo initialLoopState (before ++ block ++ after) = .ok stF) :
    ∃ r, alookup d stF.bitodPreds = some r
      ∧ TurnKeysOk r.turns block ∧ TurnStatesOk env r.turns block := by
  rw [List.append_assoc] at hrun
  obtain ⟨st1, hrun1, hrun23⟩ := runLoop_append hrun
  obtain ⟨stB, hrunB, hrunA⟩ := runLoop_append hrun23
  have hcur1 : st1.curDialId ≠ d := by
    rcases runLoop_cur_mem hrun1 with h | ⟨t', ht', he⟩
    · rw [h]
      exact Ne.symm hd
    · rw [he]
      exact hbefore t' ht'
  obtain ⟨t0, rest, rfl⟩ := List.exists_cons_of_ne_nil hblock
  have ht0d : t0.dialId = d := halld t0 (by simp)
  subst ht0d
  have hne : st1.curDialId ≠ t0.dialId := hcur1
  have hrB' : runLoop env opo (applyDialogueReset st1 t0.dialId) (t0 :: rest) = .ok stB := by
    rw [runLoop, processTurn_reset_first]
    rw [runLoop] at hrunB
    exact hrunB
  have hseed : BlockInv env t0.dialId [] (applyDialogueReset st1 t0.dialId) := by
    refine ⟨applyDialogueReset_cur st1 t0.dialId, ?_, emptyDialReport, ?_, ?_, ?_⟩
    · rw [applyDialogueReset_of_ne hne]
      rfl
    · rw [applyDialogueReset_of_ne hne]
      exact alookup_dictInsert_self _ _ _
    · exact ⟨by simp [emptyDialReport], [], by simp [emptyDialReport], List.chain'_nil,
        by intro j hj; cases hj⟩
    · intro p hp s hs
      simp [emptyDialReport] at hp
  have hinvB := blockInv_run hseed halld (by intro x hx; cases hx) hchain hrB'
  obtain ⟨hcurB, hdsB, rB, hrB, hksB, hstB⟩ := hinvB
  rw [List.nil_append] at hksB hstB
  refine ⟨rB, ?_, hksB, hstB⟩
  rw [runLoop_bitod_other hafter hrunA]
  exact hrB

/-- Witness for C6 on a one-dialogue contiguous stream. -/
theorem claim_C6_witness :
    ∃ stF, runLoop envTest false initialLoopState
        (([] : List Turn) ++ [tA1dst, tA2apiOk, tA4response] ++ []) = .ok stF
      ∧ ∃ r, alookup "A" stF.bitodPreds = some r
        ∧ TurnKeysOk r.turns [tA1dst, tA2apiOk, tA4response]
        ∧ TurnStatesOk envTest r.turns [tA1dst, tA2apiOk, tA4response] := by
  cases hrun : runLoop envTest false initialLoopState
      (([] : List Turn) ++ [tA1dst, tA2apiOk, tA4response] ++ []) with
  | error e =>
    have hok : (runLoop envTest false initialLoopState
        (([] : List Turn) ++ [tA1dst, tA2apiOk, tA4response] ++ [])).isOk = true := rfl
    rw [hrun] at hok
    simp [Except.isOk, Except.toBool] at hok
  | ok stF =>
    refine ⟨stF, rfl, ?_⟩
    exact claim_C6_report_order_and_state_amended envTest false []
      [tA1dst, tA2apiOk, tA4response] [] "A" stF (by decide) (by simp)
      (by intro t ht; fin_cases ht <;> rfl)
      (by intro t ht; cases ht) (by intro t ht; cases ht)
      (by decide) hrun

/-- Counterexample to C6 as stated: in the interleaved stream A1, B1,
A2 the revisit of dialogue A resets its state and report entry, so the
state recorded at A's turn 2 is the delta of turn 2 alone, not the
merge of A's dst deltas from turns 1 and 2. -/
theorem claim_C6_counterexample :
    reportStateAt (runLoop envTest false initialLoopState [tA1dst, tB1dst, tA2dst]) "A" "2"
      = some (renameState envTest (dstateOf envTest [tA2dst]))
    ∧ reportStateAt (runLoop envTest false initialLoopState [tA1dst, tB1dst, tA2dst]) "A" "2"
      ≠ some (renameState envTest (dstateOf envTest [tA1dst, tA2dst])) := by
  exact ⟨by decide, by decide⟩

theorem cmpInt_swap (a b : Int) : cmpInt a b = (cmpInt b a).swap := by
  by_cases h1 : a < b <;> by_cases h2 : b < a
  · omega
  · simp [cmpInt, h1, h2, Ordering.swap]
  · simp [cmpInt, h1, h2, Ordering.swap]
  · simp [cmpInt, h1, h2, Ordering.swap]

theorem cmpNat_swap (a b : Nat) : cmpNat a b = (cmpNat b a).swap := by
  by_cases h1 : a < b <;> by_cases h2 : b < a
  · omega
  · simp [cmpNat, h1, h2, Ordering.swap]
  · simp [cmpNat, h1, h2, Ordering.swap]
  · simp [cmpNat, h1, h2, Ordering.swap]

theorem cmpChar_swap (a b : Char) : cmpChar a b = (cmpChar b a).swap :=
  cmpNat_swap _ _

theorem cmpList_swap {α : Type} (cmp : α → α → Ordering)
    (hswap : ∀ a b, cmp a b = (cmp b a).swap) :
    ∀ as bs : List α, cmpList cmp as bs = (cmpList cmp bs as).swap := by
  intro as
  induction as with
  | nil =>
    intro bs
    cases bs <;> rfl
  | cons a as ih =>
    intro bs
    cases bs with
    | nil => rfl
    | cons b bs =>
      simp only [cmpList]
      rw [hswap a b]
      cases h : cmp b a with
      | lt => rfl
      | gt => rfl
      | eq =>
        simp only [Ordering.swap]
        exact ih bs

theorem cmpStr_swap (a b : String) : cmpStr a b = (cmpStr b a).swap :=
  cmpList_swap cmpChar cmpChar_swap a.data b.data

theorem cmpListStr_swap (a b : List String) : cmpListStr a b = (cmpListStr b a).swap :=
  cmpList_swap cmpStr cmpStr_swap a b

theorem Ordering_then_swap (o₁ o₂ : Ordering) :
    (o₁.then o₂).swap = o₁.swap.then o₂.swap := by
  cases o₁ <;> rfl

theorem cmpRTup_swap (a b : RTup) : cmpRTup a b = (cmpRTup b a).swap := by
  unfold cmpRTup
  rw [Ordering_then_swap, Ordering_then_swap, Ordering_then_swap, Ordering_then_swap,
    ← cmpInt_swap, ← cmpStr_swap, ← cmpListStr_swap, ← cmpStr_swap, ← cmpStr_swap]

theorem RLe_of_lt {a b : RTup} (h : cmpRTup a b = .lt) : RLe a b := by
  unfold RLe
  rw [h]
  simp

theorem RLe_of_not_lt {a b : RTup} (h : ¬ cmpRTup b a = .lt) : RLe a b := by
  unfold RLe
  rw [cmpRTup_swap]
  cases hcb : cmpRTup b a with
  | lt => exact absurd hcb h
  | eq => simp [Ordering.swap]
  | gt => simp [Ordering.swap]

theorem RLe_fst_le {a b : RTup} (h : RLe a b) : a.1 ≤ b.1 := by
  by_contra hlt
  push_neg at hlt
  apply h
  unfold cmpRTup cmpInt
  rw [if_neg (by omega), if_pos hlt]
  rfl

theorem insertT_perm (x : RTup) (l : List RTup) : (insertT x l).Perm (x :: l) := by
  induction l with
  | nil => exact List.Perm.refl _
  | cons y t ih =>
    unfold insertT
    by_cases hc : cmpRTup y x = .lt
    · rw [if_pos hc]
      exact (ih.cons y).trans (List.Perm.swap x y t)
    · rw [if_neg hc]

theorem pySorted_perm (l : List RTup) : (pySorted l).Perm l := by
  induction l with
  | nil => exact List.Perm.refl _
  | cons x t ih =>
    unfold pySorted
    exact (insertT_perm x (pySorted t)).trans (ih.cons x)

theorem insertT_chain (x : RTup) {l : List RTup} (h : List.Chain' RLe l) :
    List.Chain' RLe (insertT x l) := by
  induction l with
  | nil => simp [insertT]
  | cons y t ih =>
    unfold insertT
    by_cases hc : cmpRTup y x = .lt
    · rw [if_pos hc]
      cases t with
      | nil =>
        simp [insertT]
        exact RLe_of_lt hc
      | cons z t' =>
        have hyz : RLe y z := (List.chain'_cons.1 h).1
        have ht : List.Chain' RLe (z :: t') := (List.chain'_cons.1 h).2
        have hit := ih ht
        unfold insertT at hit ⊢
        by_cases hcz : cmpRTup z x = .lt
        · rw [if_pos hcz] at hit ⊢
          exact List.chain'_cons.2 ⟨hyz, hit⟩
        · rw [if_neg hcz] at hit ⊢
          exact List.chain'_cons.2 ⟨RLe_of_lt hc, hit⟩
    · rw [if_neg hc]
      exact List.chain'_cons.2 ⟨RLe_of_not_lt hc, h⟩

theorem pySorted_chain (l : List RTup) : List.Chain' RLe (pySorted l) := by
  induction l with
  | nil => simp [pySorted]
  | cons x t ih =>
    unfold pySorted
    exact insertT_chain x ih

theorem pySorted_of_chain {l : List RTup} (h : List.Chain' RLe l) : pySorted l = l := by
  induction l with
  | nil => rfl
  | cons x t ih =>
    unfold pySorted
    rw [ih h.tail]
    cases t with
    | nil => rfl
    | cons y t' =>
      have hxy : RLe x y := (List.chain'_cons.1 h).1
      have hnlt : ¬ cmpRTup y x = .lt := by
        intro hlt
        apply hxy
        rw [cmpRTup_swap, hlt]
        rfl
      unfold insertT
      rw [if_neg hnlt]

theorem zip_maps_eq (l : List RTup) :
    (l.map (·.1)).zip ((l.map (·.2.1)).zip ((l.map (·.2.2.1)).zip
      ((l.map (·.2.2.2.1)).zip (l.map (·.2.2.2.2))))) = l := by
  induction l with
  | nil => rfl
  | cons a t ih =>
    simp only [List.map_cons, List.zip_cons_cons]
    rw [ih]

/-- C9: when an original-order key list is supplied (same length as the
four parallel output lists, nonempty - Python's star-unpacking of an
empty zip raises ValueError), the reconciliation of lines 351-355
returns lists whose re-zipped 5-tuples are a permutation of the input
5-tuples, whose key list is ascending, and on which a second
reconciliation is the identity. -/
theorem claim_C9_order_reconciliation (ord : List Int) (ids : List String)
    (preds : List (List String)) (ans ctx : List String)
    (hi : ids.length = ord.length) (hp : preds.length = ord.length)
    (ha : ans.length = ord.length) (hc : ctx.length = ord.length)
    (hne : ord ≠ []) :
    ∃ ord' ids' preds' ans' ctx',
      reconcile ord ids preds ans ctx = some (ord', ids', preds', ans', ctx')
      ∧ (ord'.zip (ids'.zip (preds'.zip (ans'.zip ctx')))).Perm
          (ord.zip (ids.zip (preds.zip (ans.zip ctx))))
      ∧ ord'.Chain' (· ≤ ·)
      ∧ reconcile ord' ids' preds' ans' ctx' = some (ord', ids', preds', ans', ctx') := by
  have hlen : (ord.zip (ids.zip (preds.zip (ans.zip ctx)))).length = ord.length := by
    simp [List.length_zip, hi, hp, ha, hc]
  have htne : ord.zip (ids.zip (preds.zip (ans.zip ctx))) ≠ [] := by
    intro h0
    apply hne
    rw [h0] at hlen
    exact List.length_eq_zero.1 hlen.symm
  set tuples := ord.zip (ids.zip (preds.zip (ans.zip ctx))) with htup
  refine ⟨(pySorted tuples).map (·.1), (pySorted tuples).map (·.2.1),
    (pySorted tuples).map (·.2.2.1), (pySorted tuples).map (·.2.2.2.1),
    (pySorted tuples).map (·.2.2.2.2), ?_, ?_, ?_, ?_⟩
  · simp only [reconcile]
    rw [← htup]
    have hni0 : ¬ (tuples.isEmpty = true) := by
      obtain ⟨t0, ts, heq⟩ := List.exists_cons_of_ne_nil htne
      rw [heq]
      simp
    rw [if_neg hni0]
  · rw [zip_maps_eq]
    exact pySorted_perm tuples
  · exact List.chain'_map_of_chain' _ (fun a b hab => RLe_fst_le hab) (pySorted_chain tuples)
  · have hsne : pySorted tuples ≠ [] := by
      intro h0
      have hperm := pySorted_perm tuples
      rw [h0] at hperm
      exact htne hperm.symm.eq_nil
    simp only [reconcile, zip_maps_eq]
    rw [pySorted_of_chain (pySorted_chain tuples)]
    have hni : ¬ ((pySorted tuples).isEmpty = true) := by
      obtain ⟨s0, ss, hseq⟩ := List.exists_cons_of_ne_nil hsne
      rw [hseq]
      simp
    rw [if_neg hni]

/-- Witness for C9 on a concrete two-element instance. -/
theorem claim_C9_witness :
    (["b", "a"] : List String).length = ([2, 1] : List Int).length
    ∧ ([2, 1] : List Int) ≠ []
    ∧ ∃ ord' ids' preds' ans' ctx',
        reconcile [2, 1] ["b", "a"] [["p2"], ["p1"]] ["x", "y"] ["c", "d"]
          = some (ord', ids', preds', ans', ctx')
        ∧ (ord'.zip (ids'.zip (preds'.zip (ans'.zip ctx')))).Perm
            (([2, 1] : List Int).zip ((["b", "a"] : List String).zip
              (([["p2"], ["p1"]] : List (List String)).zip
                ((["x", "y"] : List String).zip (["c", "d"] : List String)))))
        ∧ ord'.Chain' (· ≤ ·)
        ∧ reconcile ord' ids' preds' ans' ctx' = some (ord', ids', preds', ans', ctx') :=
  ⟨rfl, by decide,
    claim_C9_order_reconciliation [2, 1] ["b", "a"] [["p2"], ["p1"]] ["x", "y"] ["c", "d"]
      rfl rfl rfl rfl (by decide)⟩

end GenieNLP
